import Mathlib

/-!
Verification of the wake build-language frontend against its specification.

The C++ sources are embedded shallowly:

* `src/src/frontend/todst.cpp` — the CST → DST desugarer (`parse_package`,
  `parse_import`, `parse_export`, `parse_topic`, `parse_data`, `parse_tuple`,
  `bind_def`, `bind_type`, `parse_def`, `dst_top`);
* `src/syntax.cpp` — the lexer driver and indent processor (`ingest`).

Modelling conventions: a `std::map` becomes an association list with
insert-if-absent semantics (the properties below depend only on lookup, never
on traversal order); diagnostics become a list of structured records appended
in emission order; source locations are abstract identifiers (the C++
`Location` carries a filename and byte coordinates, but the properties only
compare locations for identity).  The CST walk itself (`firstChildNode`,
`nextSiblingNode`) is abstracted away: each desugaring routine receives the
fields that the corresponding C++ routine extracts from the CST.
-/

namespace Wake

/-- Abstract source location. -/
structure Location where
  id : Nat
deriving DecidableEq, Repr, Inhabited

/-- Stand-in for the C++ `LOCATION` macro (a location fabricated at a source
line of the compiler itself, not of the wake input). -/
def synthLoc : Location := ⟨1000000⟩

/-- Expression flag bits from the frontend (`FLAG_AST`, `FLAG_TOUCHED`,
`FLAG_SYNTHETIC`), modelled as a record of booleans. -/
structure Flags where
  ast : Bool
  touched : Bool
  synthetic : Bool
deriving DecidableEq, Repr, Inhabited

def noFlags : Flags := ⟨false, false, false⟩

/-- The pattern/type sublanguage `AST`: token location, name, optional field
tag, optional type annotation and argument list (todst.cpp uses one record for
patterns, type expressions and constructor heads). -/
inductive AST where
  | mk (token : Location) (name : String) (tag : String)
       (typeAnn : Option AST) (args : List AST)

def AST.token : AST → Location
  | .mk t _ _ _ _ => t

def AST.name : AST → String
  | .mk _ n _ _ _ => n

/-- The desugared expression language (`expr.h` variants used by the claims).
Every node carries its flag bits and a source location, as in the C++ `Expr`
base class.  `DefMap` entries are `(name, (location, body))` pairs standing
for the C++ `DefValue`. -/
inductive Expr where
  | varRef (flags : Flags) (loc : Location) (name : String)
  | literal (flags : Flags) (loc : Location) (value : String)
  | prim (flags : Flags) (loc : Location) (name : String)
  | lambda (flags : Flags) (loc : Location) (arg : String) (body : Expr)
  | app (flags : Flags) (loc : Location) (fn : Expr) (val : Expr)
  | construct (flags : Flags) (loc : Location) (sumName : String) (ctorName : String)
  | get (flags : Flags) (loc : Location) (sumName : String) (ctorName : String) (index : Nat)
  | defMap (flags : Flags) (loc : Location) (defs : List (String × Location × Expr)) (body : Expr)
  | matchE (flags : Flags) (loc : Location) (args : List Expr)
           (patterns : List (AST × Expr × Option Expr)) (otherwise : Option Expr)
           (refutable : Bool)
  | ascribe (flags : Flags) (loc : Location) (sig : AST) (body : Expr)
  | subscribe (flags : Flags) (loc : Location) (name : String)

/-- Location of an expression (the C++ `expr->location`). -/
def Expr.loc : Expr → Location
  | .varRef _ l _ => l
  | .literal _ l _ => l
  | .prim _ l _ => l
  | .lambda _ l _ _ => l
  | .app _ l _ _ => l
  | .construct _ l _ _ => l
  | .get _ l _ _ _ => l
  | .defMap _ l _ _ => l
  | .matchE _ l _ _ _ _ => l
  | .ascribe _ l _ _ => l
  | .subscribe _ l _ => l

/-- Flag bits of an expression's top node. -/
def Expr.flagsOf : Expr → Flags
  | .varRef f _ _ => f
  | .literal f _ _ => f
  | .prim f _ _ => f
  | .lambda f _ _ _ => f
  | .app f _ _ _ => f
  | .construct f _ _ _ => f
  | .get f _ _ _ _ => f
  | .defMap f _ _ _ => f
  | .matchE f _ _ _ _ _ => f
  | .ascribe f _ _ _ => f
  | .subscribe f _ _ => f

/-- The C++ `expr->flags |= FLAG_SYNTHETIC` on the top node. -/
def Expr.setSynthetic : Expr → Expr
  | .varRef f l n => .varRef { f with synthetic := true } l n
  | .literal f l v => .literal { f with synthetic := true } l v
  | .prim f l n => .prim { f with synthetic := true } l n
  | .lambda f l a b => .lambda { f with synthetic := true } l a b
  | .app f l a b => .app { f with synthetic := true } l a b
  | .construct f l s c => .construct { f with synthetic := true } l s c
  | .get f l s c i => .get { f with synthetic := true } l s c i
  | .defMap f l d b => .defMap { f with synthetic := true } l d b
  | .matchE f l a p o r => .matchE { f with synthetic := true } l a p o r
  | .ascribe f l s b => .ascribe { f with synthetic := true } l s b
  | .subscribe f l n => .subscribe { f with synthetic := true } l n

def Expr.isSynthetic (e : Expr) : Bool := e.flagsOf.synthetic

/-- A `DefValue`: definition location plus body expression. -/
structure DefValue where
  loc : Location
  body : Expr

/-- The `Definition` record of todst.cpp (type variables omitted — no claim
mentions them). -/
structure Definition where
  name : String
  loc : Location
  body : Expr

/-- A `SymbolSource`: location, optional qualified name, `SYM_LEAF` flag. -/
structure SymbolSource where
  loc : Location
  qualified : Option String
  leaf : Bool
deriving DecidableEq, Repr

def leafSource (loc : Location) : SymbolSource := ⟨loc, none, true⟩

/-- Structured diagnostic messages, one constructor per `ERROR(...)` site
relevant to the claims. -/
inductive DiagMsg where
  | illegalBuiltin
  | packageRedefined (old : String) (next : String)
  | duplicateDef (name : String) (prev : Location)
  | duplicateType (name : String) (prev : Location)
  | duplicateTopic (name : String) (prev : Location)
  | duplicateImport (name : String) (prev : Location)
  | duplicateExportLocal (name : String) (prev : Location)
  | importKindChange (pkg : String)
  | exportNeedsArity
  | exportKindMissing
  | dataNotUpper (name : String)
  | ctorNotUpper (name : String)
  | ctorTagged (name : String) (tag : String)
  | tupleNotUpper (name : String)
  | topicNotLower (name : String)
deriving DecidableEq, Repr

/-- A reported diagnostic: the location passed to `ERROR` plus the message;
locations mentioned inside the message text are fields of `DiagMsg`. -/
structure Diagnostic where
  loc : Location
  msg : DiagMsg
deriving DecidableEq, Repr

/-- Association-list lookup (the observable behaviour of `std::map::find`). -/
def alookup {α : Type} : List (String × α) → String → Option α
  | [], _ => none
  | (k, v) :: rest, q => if q = k then some v else alookup rest q

/-- Insert-if-absent (the observable behaviour of `std::map::insert`): on a
present key the map is unchanged and the insert reports failure. -/
def ainsert {α : Type} (m : List (String × α)) (k : String) (v : α) :
    List (String × α) :=
  match alookup m k with
  | some _ => m
  | none => (k, v) :: m

/-- Symbol kinds as classified by the lexer.

Modelled from the spec: `lex_kind` lives in `frontend/lexer.h`, which is not
among the sources; per the spec, identifiers are *upper-case* or *lower-case*
by their first codepoint and operator identifiers form the third class. -/
inductive SymKind where
  | upper
  | lower
  | op
deriving DecidableEq, Repr

/-- Modelled from the spec: classification of a name by its first character
(`frontend/lexer.h` is not among the sources). -/
def lex_kind (s : String) : SymKind :=
  match s.data with
  | [] => .op
  | c :: _ =>
    if c.isUpper then .upper
    else if c.isLower || c = '_' then .lower
    else .op

/-- The per-file desugaring state: the file's `DefMap` (`defs`, `imports`),
its topics, the package-level symbol tables and the process-global tables,
plus the diagnostics emitted so far.  Fields mirror the objects that
`dst_top` and its helpers mutate. -/
structure FrontState where
  pkgName : String
  defs : List (String × DefValue)
  pkgTypes : List (String × SymbolSource)
  topics : List (String × Location)
  localDefs : List (String × SymbolSource)
  localTypes : List (String × SymbolSource)
  localTopics : List (String × SymbolSource)
  exportDefs : List (String × SymbolSource)
  exportTypes : List (String × SymbolSource)
  exportTopics : List (String × SymbolSource)
  globalDefs : List (String × SymbolSource)
  globalTypes : List (String × SymbolSource)
  globalTopics : List (String × SymbolSource)
  importDefs : List (String × SymbolSource)
  importTypes : List (String × SymbolSource)
  importTopics : List (String × SymbolSource)
  importMixed : List (String × SymbolSource)
  importAll : List String
  diags : List Diagnostic

def initState : FrontState :=
  ⟨"", [], [], [], [], [], [], [], [], [], [], [], [], [], [], [], [], [], []⟩

/-- `bind_global` (todst.cpp:1093): plain insert into the global defs, skipped
for `_` or when no global table was supplied. -/
def bind_global (st : FrontState) (d : Definition) (toGlobal : Bool) : FrontState :=
  if toGlobal = true ∧ d.name ≠ "_" then
    { st with globalDefs := ainsert st.globalDefs d.name (leafSource d.loc) }
  else st

/-- `bind_export` (todst.cpp:1100): plain insert into the package exports,
skipped for `_` or when no export table was supplied. -/
def bind_export (st : FrontState) (d : Definition) (toExport : Bool) : FrontState :=
  if toExport = true ∧ d.name ≠ "_" then
    { st with exportDefs := ainsert st.exportDefs d.name (leafSource d.loc) }
  else st

/-- The renaming `if (def.name == "_") def.name = "_" + defs.size() + " _"`
of `bind_def` (todst.cpp:1111); `bind_global`/`bind_export` do not touch the
`DefMap`, so the size is read off the incoming state. -/
def bindName (st : FrontState) (d : Definition) : String :=
  if d.name = "_" then "_" ++ toString st.defs.length ++ " _" else d.name

/-- The `map.defs.insert` step of `bind_def` (todst.cpp:1115): a duplicate
leaves the map unchanged and reports an error at the new body's location
mentioning the previous body's location. -/
def bindInsert (st : FrontState) (name : String) (d : Definition) : FrontState :=
  match alookup st.defs name with
  | some prev =>
    { st with diags := st.diags ++ [⟨d.body.loc, .duplicateDef name prev.body.loc⟩] }
  | none =>
    { st with defs := (name, DefValue.mk d.loc d.body) :: st.defs }

/-- `bind_def` (todst.cpp:1107): record global/export visibility, rename `_`
to a fresh positional name, then insert into the file `DefMap`. -/
def bind_def (st : FrontState) (d : Definition) (toExport toGlobal : Bool) :
    FrontState :=
  bindInsert (bind_export (bind_global st d toGlobal) d toExport) (bindName st d) d

/-- The `globals->types.insert` step of `bind_type` (todst.cpp:1122). -/
def bindTypeGlobal (st : FrontState) (name : String) (loc : Location)
    (toGlobal : Bool) : FrontState :=
  if toGlobal then
    { st with globalTypes := ainsert st.globalTypes name (leafSource loc) } else st

/-- The `exports->types.insert` step of `bind_type` (todst.cpp:1123). -/
def bindTypeExport (st : FrontState) (name : String) (loc : Location)
    (toExport : Bool) : FrontState :=
  if toExport then
    { st with exportTypes := ainsert st.exportTypes name (leafSource loc) } else st

/-- The `package.package.types.insert` step of `bind_type` (todst.cpp:1125)
with its duplicate diagnostic. -/
def bindTypeInsert (st : FrontState) (name : String) (loc : Location) : FrontState :=
  match alookup st.pkgTypes name with
  | some prev => { st with diags := st.diags ++ [⟨loc, .duplicateType name prev.loc⟩] }
  | none => { st with pkgTypes := (name, leafSource loc) :: st.pkgTypes }

/-- `bind_type` (todst.cpp:1121): optional global/export inserts, then insert
into the package types with a duplicate diagnostic. -/
def bind_type (st : FrontState) (name : String) (loc : Location)
    (toExport toGlobal : Bool) : FrontState :=
  bindTypeInsert (bindTypeExport (bindTypeGlobal st name loc toGlobal) name loc toExport)
    name loc

/-- `package`/`export` flags read off a top-level declaration
(`parse_flags`, todst.cpp:953). -/
structure TopFlags where
  exportf : Bool
  globalf : Bool
deriving DecidableEq, Repr

/-- `parse_package` (todst.cpp:788): reject `builtin`, set the name if still
unset, otherwise report a redefinition.  `loc` is the whole declaration,
`idLoc` the identifier child. -/
def parse_package (st : FrontState) (loc idLoc : Location) (id : String) :
    FrontState :=
  if id = "builtin" then
    { st with diags := st.diags ++ [⟨idLoc, .illegalBuiltin⟩] }
  else if st.pkgName = "" then
    { st with pkgName := id }
  else
    { st with diags := st.diags ++ [⟨loc, .packageRedefined st.pkgName id⟩] }

/-- Whether a CST symbol element is an identifier (`CST_ID`) or an operator
(`CST_OP`) — the `idop1`/`idop2` values of `parse_import`/`parse_export`. -/
inductive IdKind where
  | id
  | op
deriving DecidableEq, Repr

/-- The `unary`/`binary` arity keyword on an import/export clause
(`parse_arity`, todst.cpp:806). -/
structure ImportArity where
  unary : Bool
  binary : Bool
deriving DecidableEq, Repr

/-- `prefix_op` (todst.cpp:822): operator names are rewritten with a
`unary `/`binary `/`op ` prefix. -/
def prefix_op (ia : ImportArity) (name : String) : String :=
  if ia.unary then "unary " ++ name
  else if ia.binary then "binary " ++ name
  else "op " ++ name

/-- One `name` or `name = source` element of an import/export list:
the kind and text of the first identifier and, when present, of the second. -/
structure ImportItem where
  loc : Location
  kind1 : IdKind
  name1 : String
  rest : Option (IdKind × String)

/-- Which symbol map an import targets (`CST_KIND` child or the default
`mixed` map). -/
inductive ImpKind where
  | mixed
  | defs
  | types
  | topics
deriving DecidableEq, Repr

/-- A `from P import …` clause as extracted from the CST by `parse_import`:
package name, optional kind keyword, arity keywords, and the items
(an empty item list is the wildcard import). -/
structure ImportClause where
  pkg : String
  kind : ImpKind
  arity : ImportArity
  items : List ImportItem

/-- The `(idop1-adjusted, name, source)` computation of one import element
(todst.cpp:860-882): with no `= source` part the source kind copies the name
kind; with one, a kind change without `unary`/`binary` is an error and the
element is reinterpreted as importing the source symbol.  Returns
`(errored, inserted name, qualified source)`. -/
def importItemResult (ia : ImportArity) (pkg : String) (it : ImportItem) :
    Bool × String × String :=
  match it.rest with
  | none =>
    (false,
     if it.kind1 = .op then prefix_op ia it.name1 else it.name1,
     if it.kind1 = .op then prefix_op ia (it.name1 ++ "@" ++ pkg)
     else it.name1 ++ "@" ++ pkg)
  | some (k2, n2) =>
    if k2 = it.kind1 ∨ ia.binary = true ∨ ia.unary = true then
      (false,
       if it.kind1 = .op then prefix_op ia it.name1 else it.name1,
       if k2 = .op then prefix_op ia (n2 ++ "@" ++ pkg) else n2 ++ "@" ++ pkg)
    else
      (true,
       if k2 = .op then prefix_op ia n2 else n2,
       if k2 = .op then prefix_op ia (n2 ++ "@" ++ pkg) else n2 ++ "@" ++ pkg)

/-- Read the import target map selected by the clause kind. -/
def importTargetGet (st : FrontState) : ImpKind → List (String × SymbolSource)
  | .mixed => st.importMixed
  | .defs => st.importDefs
  | .types => st.importTypes
  | .topics => st.importTopics

/-- Write back the import target map selected by the clause kind. -/
def importTargetSet (st : FrontState) (k : ImpKind)
    (m : List (String × SymbolSource)) : FrontState :=
  match k with
  | .mixed => { st with importMixed := m }
  | .defs => { st with importDefs := m }
  | .types => { st with importTypes := m }
  | .topics => { st with importTopics := m }

/-- The kind-change `ERROR` of one import element (todst.cpp:877), emitted
when `importItemResult` flagged the element. -/
def importKindDiag (kc : Bool) (loc : Location) (pkg : String)
    (st : FrontState) : FrontState :=
  if kc then { st with diags := st.diags ++ [⟨loc, .importKindChange pkg⟩] } else st

/-- The `target->insert` of one import element (todst.cpp:883) with its
duplicate-import diagnostic. -/
def importInsert (kind : ImpKind) (st : FrontState) (loc : Location)
    (name source : String) : FrontState :=
  match alookup (importTargetGet st kind) name with
  | some prev =>
    { st with diags := st.diags ++ [⟨loc, .duplicateImport name prev.loc⟩] }
  | none =>
    importTargetSet st kind ((name, ⟨loc, some source, false⟩) :: importTargetGet st kind)

/-- Processing of one import element: report the kind-change error if any,
then insert `(name, SymbolSource(location, source))`, reporting a duplicate import
on failure (todst.cpp:859-885). -/
def importOne (kind : ImpKind) (ia : ImportArity) (pkg : String)
    (st : FrontState) (it : ImportItem) : FrontState :=
  importInsert kind
    (importKindDiag (importItemResult ia pkg it).1 it.loc pkg st)
    it.loc (importItemResult ia pkg it).2.1 (importItemResult ia pkg it).2.2

/-- `parse_import` (todst.cpp:832): wildcard imports append the package to
`import_all`; otherwise each element is processed in order. -/
def parse_import (st : FrontState) (c : ImportClause) : FrontState :=
  if c.items.isEmpty then { st with importAll := st.importAll ++ [c.pkg] }
  else c.items.foldl (importOne c.kind c.arity c.pkg) st

/-- The kind keyword of an export clause (`def`/`type`/`topic`); exports with
no kind are an error. -/
inductive ExpKind where
  | defs
  | types
  | topics
deriving DecidableEq, Repr

/-- A `from P export …` clause as extracted from the CST. -/
structure ExportClause where
  loc : Location
  pkg : String
  kind : Option ExpKind
  arity : ImportArity
  items : List ImportItem

/-- Processing of one export element (todst.cpp:916-945): operator exports
without `unary`/`binary` are an error and skipped; otherwise the name is
inserted into the package exports and the file-local symbols (a duplicate
local is an error). -/
def exportOne (kind : ExpKind) (ia : ImportArity) (pkg : String)
    (st : FrontState) (it : ImportItem) : FrontState :=
  let idop1 := it.kind1
  let idop2 := match it.rest with
    | none => it.kind1
    | some (k2, _) => k2
  let source := match it.rest with
    | none => it.name1 ++ "@" ++ pkg
    | some (_, n2) => n2 ++ "@" ++ pkg
  if (idop1 = .op ∨ idop2 = .op) ∧ ¬(ia.unary ∨ ia.binary) then
    { st with diags := st.diags ++ [⟨it.loc, .exportNeedsArity⟩] }
  else
    let name := if idop1 = .op then prefix_op ia it.name1 else it.name1
    let source := if idop2 = .op then prefix_op ia source else source
    let st := match kind with
      | .defs => { st with exportDefs := ainsert st.exportDefs name ⟨it.loc, some source, false⟩ }
      | .types => { st with exportTypes := ainsert st.exportTypes name ⟨it.loc, some source, false⟩ }
      | .topics => { st with exportTopics := ainsert st.exportTopics name ⟨it.loc, some source, false⟩ }
    let localGet := match kind with
      | .defs => st.localDefs
      | .types => st.localTypes
      | .topics => st.localTopics
    match alookup localGet name with
    | some prev =>
      { st with diags := st.diags ++ [⟨it.loc, .duplicateExportLocal name prev.loc⟩] }
    | none =>
      match kind with
      | .defs => { st with localDefs := (name, ⟨it.loc, some source, false⟩) :: localGet }
      | .types => { st with localTypes := (name, ⟨it.loc, some source, false⟩) :: localGet }
      | .topics => { st with localTopics := (name, ⟨it.loc, some source, false⟩) :: localGet }

/-- `parse_export` (todst.cpp:888): a missing kind keyword is an error;
otherwise each element is processed in order. -/
def parse_export (st : FrontState) (c : ExportClause) : FrontState :=
  match c.kind with
  | none => { st with diags := st.diags ++ [⟨c.loc, .exportKindMissing⟩] }
  | some k => c.items.foldl (exportOne k c.arity c.pkg) st

/-- A `topic t: τ` declaration as extracted from the CST (the type signature
is not inspected by any claim and is omitted). -/
structure TopicDecl where
  flags : TopFlags
  id : String
  loc : Location

/-- `parse_topic` (todst.cpp:1051): lower-case check, insert into the file's
topics with a duplicate error, then optional export/global inserts. -/
def parse_topic (st : FrontState) (t : TopicDecl) : FrontState :=
  if lex_kind t.id ≠ .lower then
    { st with diags := st.diags ++ [⟨t.loc, .topicNotLower t.id⟩] }
  else
    match alookup st.topics t.id with
    | some prev =>
      { st with diags := st.diags ++ [⟨t.loc, .duplicateTopic t.id prev⟩] }
    | none =>
      let st := { st with topics := (t.id, t.loc) :: st.topics }
      let st := if t.flags.exportf then
        { st with exportTopics := ainsert st.exportTopics t.id (leafSource t.loc) } else st
      if t.flags.globalf then
        { st with globalTopics := ainsert st.globalTopics t.id (leafSource t.loc) } else st

/-- Fold `bind_def` over a list of definitions, each with its export/global
visibility (the successive `bind_def` calls of `parse_data`/`parse_tuple`). -/
def bindAll (st : FrontState) : List (Definition × Bool × Bool) → FrontState
  | [] => st
  | (d, e, g) :: rest => bindAll (bind_def st d e g) rest

/-- One constructor clause of a `data` declaration as produced by
`parse_type`: constructor name, stray tag (an error if nonempty), token and
number of argument positions. -/
structure CtorDecl where
  name : String
  tag : String
  token : Location
  arity : Nat

/-- A `data` declaration as extracted from the CST by `parse_data`. -/
structure DataInput where
  flags : TopFlags
  name : String
  token : Location
  argsEmpty : Bool
  ctors : List CtorDecl

/-- The loop `for (i = 0; i < c.ast.args.size(); ++i) construct = new
Lambda(c.ast.token, "_", construct)` of `parse_data` (todst.cpp:1150). -/
def nLambdas : Nat → Location → Expr → Expr
  | 0, _, e => e
  | n + 1, tok, e => .lambda noFlags tok "_" (nLambdas n tok e)

/-- The curried constructor value bound for one `data` constructor:
`arity`-many `\_.` wrappers around `Construct(Sum, Ctor)`. -/
def dataCtorExpr (sumName : String) (c : CtorDecl) : Expr :=
  nLambdas c.arity c.token (.construct noFlags c.token sumName c.name)

/-- The definitions `parse_data` binds, in order, with their visibility. -/
def dataCtorDefs (d : DataInput) : List (Definition × Bool × Bool) :=
  d.ctors.map fun c =>
    (Definition.mk c.name c.token (dataCtorExpr d.name c), d.flags.exportf, d.flags.globalf)

/-- The name-case diagnostic of `parse_data` (todst.cpp:1134). -/
def dataNameDiag (st : FrontState) (d : DataInput) : FrontState :=
  if d.argsEmpty = true ∧ lex_kind d.name = .lower then
    { st with diags := st.diags ++ [⟨d.token, .dataNotUpper d.name⟩] } else st

/-- The stray-tag diagnostic of `parse_data` (todst.cpp:1139). -/
def dataCtorTagDiag (st : FrontState) (c : CtorDecl) : FrontState :=
  if c.tag ≠ "" then
    { st with diags := st.diags ++ [⟨c.token, .ctorTagged c.name c.tag⟩] } else st

/-- The lower-case-constructor diagnostic of `parse_data` (todst.cpp:1140). -/
def dataCtorLowerDiag (st : FrontState) (c : CtorDecl) : FrontState :=
  if c.arity = 0 ∧ lex_kind c.name = .lower then
    { st with diags := st.diags ++ [⟨c.token, .ctorNotUpper c.name⟩] } else st

/-- The per-constructor diagnostics of `parse_data` (todst.cpp:1139-1140). -/
def dataCtorDiag (st : FrontState) (c : CtorDecl) : FrontState :=
  dataCtorLowerDiag (dataCtorTagDiag st c) c

/-- `parse_data` (todst.cpp:1129): name-case diagnostic, per-constructor
diagnostics, `bind_type` for the sum, then one `bind_def` per constructor
(the `check_special` registry hook for package `wake` touches no state a
claim observes and is omitted). -/
def parse_data (st : FrontState) (d : DataInput) : FrontState :=
  bindAll
    (bind_type (d.ctors.foldl dataCtorDiag (dataNameDiag st d))
      d.name d.token d.flags.exportf d.flags.globalf)
    (dataCtorDefs d)

/-- One field of a `tuple` declaration: per-field visibility flags, the field
name (the `tag` of the member's type AST) and the member's source region. -/
structure TupleField where
  flags : TopFlags
  tag : String
  region : Location

/-- A `tuple` declaration as extracted from the CST by `parse_tuple`. -/
structure TupleInput where
  flags : TopFlags
  name : String
  token : Location
  fields : List TupleField

/-- The tuple constructor value: one lambda per field, named by the field
tags, around `Construct(Sum, Ctor)` (todst.cpp:1182). -/
def tupleCtorExpr (t : TupleInput) : Expr :=
  t.fields.foldr (fun f acc => Expr.lambda noFlags t.token f.tag acc)
    (.construct noFlags t.token t.name t.name)

/-- The `_ aNNNN` slot names of the generated `set`/`edit` bodies
(todst.cpp:1221): `"_ a"` plus `members.size()-inner` zero-padded to width 4. -/
def slotName (total inner : Nat) : String :=
  let x := toString (total - inner)
  "_ a" ++ ⟨List.replicate (4 - x.length) '0'⟩ ++ x

/-- The `get` accessor for field `i`: `\_. Get(Sum, Ctor, i)`, marked
`FLAG_SYNTHETIC` (todst.cpp:1204). -/
def tupleGetFn (T : String) (mt : Location) (i : Nat) : Expr :=
  Expr.setSynthetic (.lambda noFlags mt "_" (.get noFlags mt T T i))

/-- One slot of the `edit` accessor body: slot `outer` applies `fnF` to the
got value, other slots copy the receiver's slot (todst.cpp:1212). -/
def editSelect (T : String) (mt : Location) (inner outer : Nat) (mname : String) :
    Expr :=
  let select := Expr.get noFlags mt T T inner
  if inner = outer then
    .app noFlags mt (.varRef noFlags mt ("fn" ++ mname))
      (.app noFlags mt (.lambda noFlags mt "_" select) (.varRef noFlags mt "_ x"))
  else select

/-- The `edit` accessor: `\fnF \_x. DefMap{slots}. Construct(Sum, Ctor)`,
marked `FLAG_SYNTHETIC` (todst.cpp:1210). -/
def tupleEditFn (T : String) (mt : Location) (total outer : Nat) (mname : String) :
    Expr :=
  let editmap := Expr.defMap noFlags mt
    ((List.range total).map fun inner =>
      (slotName total inner, mt, editSelect T mt inner outer mname))
    (.construct noFlags mt T T)
  Expr.setSynthetic (.lambda noFlags mt ("fn" ++ mname) (.lambda noFlags mt "_ x" editmap))

/-- The `set` accessor: `\F \_x. DefMap{slots}. Construct(Sum, Ctor)` where
slot `outer` is the new value, marked `FLAG_SYNTHETIC` (todst.cpp:1236). -/
def tupleSetFn (T : String) (mt : Location) (total outer : Nat) (mname : String) :
    Expr :=
  let setmap := Expr.defMap noFlags mt
    ((List.range total).map fun inner =>
      (slotName total inner, mt,
        if inner = outer then Expr.varRef noFlags mt mname
        else Expr.get noFlags mt T T inner))
    (.construct noFlags mt T T)
  Expr.setSynthetic (.lambda noFlags mt mname (.lambda noFlags mt "_ x" setmap))

/-- The accessor-definition loop of `parse_tuple` (todst.cpp:1195-1257):
`i` indexes all members, `outer` only those processed (non-upper-case field
names are skipped); each upper-case field yields its `get`, `edit` and `set`
definitions with the field's own visibility flags. -/
def tupleAccessorDefs (T : String) (total : Nat) :
    List TupleField → Nat → Nat → List (Definition × Bool × Bool)
  | [], _, _ => []
  | f :: rest, i, outer =>
    if lex_kind f.tag = .upper then
      (Definition.mk ("get" ++ T ++ f.tag) f.region (tupleGetFn T f.region i),
        f.flags.exportf, f.flags.globalf) ::
      (Definition.mk ("edit" ++ T ++ f.tag) f.region (tupleEditFn T f.region total outer f.tag),
        f.flags.exportf, f.flags.globalf) ::
      (Definition.mk ("set" ++ T ++ f.tag) f.region (tupleSetFn T f.region total outer f.tag),
        f.flags.exportf, f.flags.globalf) ::
      tupleAccessorDefs T total rest (i + 1) (outer + 1)
    else tupleAccessorDefs T total rest (i + 1) outer

/-- The name-case diagnostic of `parse_tuple` (todst.cpp:1164). -/
def tupleNameDiag (st : FrontState) (t : TupleInput) : FrontState :=
  if lex_kind t.name ≠ .upper then
    { st with diags := st.diags ++ [⟨t.token, .tupleNotUpper t.name⟩] } else st

/-- The full list of `(definition, exported, global)` triples `parse_tuple`
binds: the constructor with the type's flags, then the accessors. -/
def tupleDefs (t : TupleInput) : List (Definition × Bool × Bool) :=
  (Definition.mk t.name t.token (tupleCtorExpr t), t.flags.exportf, t.flags.globalf) ::
  tupleAccessorDefs t.name t.fields.length t.fields 0 0

/-- `parse_tuple` (todst.cpp:1159): name-case diagnostic, `bind_type` and the
constructor `bind_def` with the *type's* flags, then the accessor loop with
the *per-field* flags. -/
def parse_tuple (st : FrontState) (t : TupleInput) : FrontState :=
  bindAll
    (bind_type (tupleNameDiag st t) t.name t.token t.flags.exportf t.flags.globalf)
    (tupleDefs t)

/-- One argument position of a `def`, as parsed into the sublanguage `AST`. -/
structure DefArg where
  name : String
  token : Location
  region : Location
  typeAnn : Option AST

/-- A top-level `def f x1 … xN = body` as extracted from the CST: function
name, its token, the whole-head region `fn`, an optional result ascription,
the argument ASTs and the already-desugared body. -/
structure DefDecl where
  name : String
  token : Location
  fnLoc : Location
  typeAnn : Option AST
  args : List DefArg
  body : Expr

/-- The non-extract path of `parse_def` (todst.cpp:1323-1403) for a plain
`def` (`target = publish = false`): choose the pattern-match, typed or simple
lowering of the argument list, apply the optional result ascription, then
wrap the body in one lambda per argument, innermost last
(`for (i = args.rbegin(); i != args.rend(); ++i) body = new Lambda(fn,
i->first, body)`).  The extract path for upper-case names is not taken for
the lower-case definitions the claim quantifies over. -/
def parse_def_simple (d : DefDecl) : Definition :=
  let pattern := d.args.any fun a =>
    lex_kind a.name == SymKind.op || lex_kind a.name == SymKind.upper
  let typed := d.args.any fun a => a.typeAnn.isSome
  let argOfAst : DefArg → AST := fun a => AST.mk a.token a.name "" a.typeAnn []
  let res :
      List (String × Location) × Expr :=
    if pattern then
      let nargs := d.args.length
      let patternAst :=
        if nargs > 1 then AST.mk d.token "" "" none (d.args.map argOfAst)
        else match d.args with
          | a :: _ => argOfAst a
          | [] => AST.mk d.token "" "" none []
      let m := Expr.matchE noFlags d.fnLoc
        ((List.range nargs).map fun i =>
          Expr.varRef noFlags d.fnLoc ("_ " ++ toString i))
        [(patternAst, d.body, none)] none false
      ((List.range nargs).map (fun i => ("_ " ++ toString i, synthLoc)), m)
    else if typed then
      let entries := d.args.filterMap fun a =>
        match a.typeAnn with
        | some ty =>
          some ("_type " ++ a.name, a.region,
            Expr.ascribe noFlags synthLoc ty (.varRef noFlags synthLoc a.name))
        | none => none
      (d.args.map fun a => (a.name, a.token),
        Expr.defMap noFlags d.fnLoc entries d.body)
    else
      (d.args.map fun a => (a.name, a.token), d.body)
  let body := match d.typeAnn with
    | some ty => Expr.ascribe noFlags synthLoc ty res.2
    | none => res.2
  let body := res.1.foldr (fun a acc => Expr.lambda noFlags d.fnLoc a.1 acc) body
  Definition.mk d.name d.token body

/-- One top-level item of a file's CST root, dispatched on by `dst_top`
(todst.cpp:1414-1426).  The `CST_DEF`, `CST_TARGET` and `CST_PUBLISH` cases
are present in the source only as commented-out lines. -/
inductive TopItem where
  | package (loc idLoc : Location) (id : String)
  | importItem (c : ImportClause)
  | exportItem (c : ExportClause)
  | topicItem (t : TopicDecl)
  | dataItem (d : DataInput)
  | tupleItem (t : TupleInput)
  | defItem (d : DefDecl)
  | targetItem (d : DefDecl)
  | publishItem
  | errorItem

/-- The dispatch switch of `dst_top`: `CST_DEF` (todst.cpp:1423),
`CST_TARGET` (1424) and `CST_PUBLISH` (1419) have no active case and fall
through with no effect, as do kinds the switch does not mention. -/
def stepItem (st : FrontState) : TopItem → FrontState
  | .package loc idLoc id => parse_package st loc idLoc id
  | .importItem c => parse_import st c
  | .exportItem c => parse_export st c
  | .topicItem t => parse_topic st t
  | .dataItem d => parse_data st d
  | .tupleItem t => parse_tuple st t
  | .defItem _ => st
  | .targetItem _ => st
  | .publishItem => st
  | .errorItem => st

/-- Whether the file's `imports` member is empty.

Modelled from the spec: `Symbols::empty()` lives in `frontend/expr.h`, which
is not among the sources; per the spec a `Symbols` holds the defs/types/topics
maps, the `mixed` map used by imports, and the wildcard list `import_all`, so
emptiness is emptiness of all five components. -/
def importsEmpty (st : FrontState) : Bool :=
  st.importDefs.isEmpty && st.importTypes.isEmpty && st.importTopics.isEmpty &&
  st.importMixed.isEmpty && st.importAll.isEmpty

/-- The default-import step of `dst_top` (todst.cpp:1429): when the file
declared no import, a wildcard import of package `wake` is installed. -/
def importDefault (st : FrontState) : FrontState :=
  if importsEmpty st then { st with importAll := st.importAll ++ ["wake"] } else st

/-- The default-package-name step of `dst_top` (todst.cpp:1433): an unset
package name defaults to the filename. -/
def packageDefault (filename : String) (st : FrontState) : FrontState :=
  if st.pkgName = "" then { st with pkgName := filename } else st

/-- The localization loop of `dst_top` (todst.cpp:1443): the file's
definitions are requalified to `name@package`. -/
def localizeDefs (st : FrontState) : FrontState :=
  { st with defs := st.defs.map fun kv => (kv.1 ++ "@" ++ st.pkgName, kv.2) }

/-- `dst_top` (todst.cpp:1406): dispatch every top-level item, install the
default wildcard import of `wake` when no import was declared, default the
package name to the filename, then requalify the file's definitions to
`name@package`.  The promotion of local symbols into `file.local` and the
merge into the global `Top` act on tables no claim observes and are
omitted. -/
def dst_top (filename : String) (items : List TopItem) : FrontState :=
  localizeDefs (packageDefault filename (importDefault (items.foldl stepItem initState)))

/-- Whether a top-level item is a `package` declaration. -/
def TopItem.isPackage : TopItem → Bool
  | .package _ _ _ => true
  | _ => false

/-- Whether a top-level item is an `import` clause. -/
def TopItem.isImport : TopItem → Bool
  | .importItem _ => true
  | _ => false

/-- The file's `imports` member (`Symbols` object), bundled for frame
reasoning: defs, types, topics, mixed, and the wildcard list. -/
def importsOf (st : FrontState) :
    List (String × SymbolSource) × List (String × SymbolSource) ×
    List (String × SymbolSource) × List (String × SymbolSource) × List String :=
  (st.importDefs, st.importTypes, st.importTopics, st.importMixed, st.importAll)

/-- Diagnostics are only ever appended. -/
def DiagsExt (st st2 : FrontState) : Prop :=
  ∃ tail, st2.diags = st.diags ++ tail

/-- Frame relation for desugaring steps that touch neither the package name
nor the file's imports, and only append diagnostics. -/
def FrameOK (st st2 : FrontState) : Prop :=
  st2.pkgName = st.pkgName ∧ importsOf st2 = importsOf st ∧ DiagsExt st st2

/-! The lexer driver and indent processor of `syntax.cpp` (`ingest`). -/

/-- The three lexer entry points the driver can call for the next token. -/
inductive LexFn where
  | dstr
  | rstr
  | wake
deriving DecidableEq, Repr

/-- The lexer-entry-point selection of `ingest` (syntax.cpp:56-66): a next
byte `}` is lexed by `lex_dstr` if the parser would shift `STR_CLOSE`, else
by `lex_rstr` if it would shift `REG_CLOSE`, else by `lex_wake`; any other
byte is always lexed by `lex_wake`. -/
def chooseLexer (nextByte : Char) (shiftsStrClose shiftsRegClose : Bool) : LexFn :=
  if nextByte = '}' then
    if shiftsStrClose then .dstr
    else if shiftsRegClose then .rstr
    else .wake
  else .wake

/-- Input tokens as seen by the whitespace state machine: newline, whitespace
(carrying the whitespace bytes, i.e. the candidate indent), comment, end of
file, and all other (significant) tokens. -/
inductive InTok where
  | nl
  | ws (s : List Char)
  | comment
  | eof
  | other (id : Nat)
deriving DecidableEq, Repr

/-- Tokens fed to the LR parser: the synthetic `INDENT`/`DEDENT`, and every
dispatched token (including the synthetic `NL`s, which are `tok .nl`). -/
inductive OutTok where
  | indent
  | dedent
  | tok (t : InTok)
deriving DecidableEq, Repr

/-- The state constants `STATE_IDLE`/`STATE_NL`/`STATE_NL_WS`
(syntax.cpp:30-32). -/
inductive WsState where
  | idle
  | sawNL
  | sawNLWS
deriving DecidableEq, Repr

/-- The mutable whitespace-processing state of `ingest`: FSM state, the
recorded candidate indent (`nl.end … ws.end`), the current indent string and
the stack of previous indent lengths. -/
structure IngestSt where
  state : WsState
  wsBuf : List Char
  indent : List Char
  stack : List Nat
deriving DecidableEq, Repr

def ingestInit : IngestSt := ⟨.idle, [], [], []⟩

/-- The pop loop `while (newdent.compare(0, indent.size(), indent) != 0)`
(syntax.cpp:129): while the current indent is not a prefix of the new one,
emit a `DEDENT`, truncate the indent to the top stack entry and pop.  Returns
the number of `DEDENT`s with the new indent and stack.  (When the stack is
empty the current indent is the empty string, a prefix of everything, so the
guard is already false; the `[]` case is stated for totality.) -/
def popLoop (newdent : List Char) : List Char → List Nat → Nat × List Char × List Nat
  | indent, stack =>
    if indent.isPrefixOf newdent then (0, indent, stack)
    else match stack with
      | [] => (0, indent, [])
      | n :: rest =>
        let r := popLoop newdent (indent.take n) rest
        (r.1 + 1, r.2)

/-- Indentation reconciliation (syntax.cpp:123-150): pop until the indent is
a prefix of `newdent`, then push one `INDENT` if `newdent` is strictly
longer; afterwards a synthetic `NL` is offered if the parser can shift one
(`nlShift` stands for that `ParseShifts(parser, TOKEN_NL)` query). -/
def reconcile (nlShift : Bool) (s : IngestSt) : List OutTok × IngestSt :=
  let r := popLoop s.wsBuf s.indent s.stack
  let d := r.1
  let i1 := r.2.1
  let s1 := r.2.2
  let out1 : List OutTok × List Char × List Nat :=
    if s.wsBuf.length > i1.length then
      (List.replicate d .dedent ++ [.indent], s.wsBuf, i1.length :: s1)
    else (List.replicate d .dedent, i1, s1)
  (out1.1 ++ (if nlShift then [.tok .nl] else []),
   ⟨.idle, s.wsBuf, out1.2.1, out1.2.2⟩)

/-- The `STATE_NL_WS` arm (syntax.cpp:107-152), also entered from `STATE_NL`
with an empty candidate indent: an `NL` is an empty line (restart at
`STATE_NL`), a `COMMENT` is a comment-only line (back to `STATE_IDLE`),
anything else reconciles indentation and is then dispatched.  The boolean of
the result says whether the token falls through to `Parse`. -/
def nlwsHandle (nlShift : Bool) (s : IngestSt) (t : InTok) :
    List OutTok × IngestSt × Bool :=
  match t with
  | .nl => ([], { s with state := .sawNL }, false)
  | .comment => ([], { s with state := .idle }, false)
  | _ =>
    let r := reconcile nlShift s
    (r.1, r.2, true)

/-- One iteration of the whitespace FSM switch (syntax.cpp:81-153) on the
freshly lexed token; the boolean says whether the token reaches `Parse`. -/
def wsFSM (nlShift : Bool) (s : IngestSt) (t : InTok) :
    List OutTok × IngestSt × Bool :=
  match s.state with
  | .idle =>
    match t with
    | .ws _ => ([], s, false)
    | .comment => ([], s, false)
    | .nl => ([], { s with state := .sawNL }, false)
    | _ => ([], s, true)
  | .sawNL =>
    match t with
    | .ws w => ([], { s with state := .sawNLWS, wsBuf := w }, false)
    | _ => nlwsHandle nlShift { s with wsBuf := [] } t
  | .sawNLWS => nlwsHandle nlShift s t

/-- One full iteration of the `ingest` loop body on one token: the
whitespace FSM, then the `TOKEN_EOF` block (syntax.cpp:155-163) emitting one
`DEDENT` per remaining stack entry plus an optional `NL`, then the dispatch
`Parse(parser, token.id, …)` of the token itself. -/
def ingestStep (nlShift : Bool) (s : IngestSt) (t : InTok) :
    List OutTok × IngestSt :=
  let r := wsFSM nlShift s t
  if t = .eof then
    (r.1 ++ List.replicate r.2.1.stack.length .dedent ++
       (if nlShift then [.tok .nl] else []) ++ [.tok .eof],
     { r.2.1 with stack := [] })
  else if r.2.2 then (r.1 ++ [.tok t], r.2.1)
  else (r.1, r.2.1)

/-- The `do … while (token.id != TOKEN_EOF)` loop of `ingest`: fold the step
over the token stream, stopping after the first `EOF`. -/
def ingestRun (nlShift : Bool) : IngestSt → List InTok → List OutTok × IngestSt
  | s, [] => ([], s)
  | s, t :: ts =>
    let r := ingestStep nlShift s t
    if t = .eof then r
    else
      let r2 := ingestRun nlShift r.2 ts
      (r.1 ++ r2.1, r2.2)

/-! Concrete inputs used by the witness theorems below. -/

/-- Concrete state with `f` already bound, for the C7 witness. -/
def dupSt : FrontState :=
  { initState with defs := [("f", ⟨⟨1⟩, Expr.literal noFlags ⟨2⟩ "one"⟩)] }

/-- Concrete second definition of `f`, for the C7 witness. -/
def dupDef : Definition := ⟨"f", ⟨3⟩, Expr.literal noFlags ⟨4⟩ "two"⟩

/-- Concrete `data Maybe a = Some a | None` input, for the C3 witness. -/
def maybeData : DataInput :=
  ⟨⟨false, false⟩, "Maybe", ⟨0⟩, false,
    [⟨"Some", "", ⟨1⟩, 1⟩, ⟨"None", "", ⟨2⟩, 0⟩]⟩

/-- Concrete `tuple Point = export X: Integer | global Y: Integer` input for
the C1 witness: per-field flags differ from the type's flags. -/
def pointTuple : TupleInput :=
  ⟨⟨false, false⟩, "Point", ⟨0⟩,
    [⟨⟨true, false⟩, "X", ⟨2⟩⟩, ⟨⟨false, true⟩, "Y", ⟨3⟩⟩]⟩

/-- Concrete `tuple T = x: Integer` whose only field name is lower-case. -/
def lowerFieldTuple : TupleInput :=
  ⟨⟨false, false⟩, "T", ⟨0⟩, [⟨⟨false, false⟩, "x", ⟨1⟩⟩]⟩

/-- Concrete `def f x y = x` declaration, for the C2 witness. -/
def fxyDef : DefDecl :=
  ⟨"f", ⟨1⟩, ⟨2⟩, none,
    [⟨"x", ⟨3⟩, ⟨4⟩, none⟩, ⟨"y", ⟨5⟩, ⟨6⟩, none⟩],
    Expr.varRef noFlags ⟨7⟩ "x"⟩

/-- Concrete `from q import x = +` element (identifier renamed from an
operator) with no arity keyword, for the C6 witness. -/
def kindChangeItem : ImportItem := ⟨⟨9⟩, .id, "x", some (.op, "+")⟩

/-- Concrete import clause holding only `kindChangeItem`. -/
def kindChangeClause : ImportClause := ⟨"q", .mixed, ⟨false, false⟩, [kindChangeItem]⟩

/-- Concrete wildcard import clause `from q import _`, for the C10 witness. -/
def wildcardClause : ImportClause := ⟨"q", .mixed, ⟨false, false⟩, []⟩

/-! Helper lemmas about the association-list maps and `bind_def`. -/

theorem alookup_cons {α : Type} (k : String) (v : α) (m : List (String × α)) (q : String) :
    alookup ((k, v) :: m) q = if q = k then some v else alookup m q := rfl

theorem bind_global_defs (st : FrontState) (d : Definition) (g : Bool) :
    (bind_global st d g).defs = st.defs := by
  unfold bind_global; split <;> rfl

theorem bind_global_diags (st : FrontState) (d : Definition) (g : Bool) :
    (bind_global st d g).diags = st.diags := by
  unfold bind_global; split <;> rfl

theorem bind_global_exportDefs (st : FrontState) (d : Definition) (g : Bool) :
    (bind_global st d g).exportDefs = st.exportDefs := by
  unfold bind_global; split <;> rfl

theorem bind_export_defs (st : FrontState) (d : Definition) (e : Bool) :
    (bind_export st d e).defs = st.defs := by
  unfold bind_export; split <;> rfl

theorem bind_export_diags (st : FrontState) (d : Definition) (e : Bool) :
    (bind_export st d e).diags = st.diags := by
  unfold bind_export; split <;> rfl

theorem bind_export_globalDefs (st : FrontState) (d : Definition) (e : Bool) :
    (bind_export st d e).globalDefs = st.globalDefs := by
  unfold bind_export; split <;> rfl

theorem bind_global_globalDefs_other (st : FrontState) (d : Definition) (g : Bool)
    (k : String) (hk : k ≠ d.name) :
    alookup (bind_global st d g).globalDefs k = alookup st.globalDefs k := by
  unfold bind_global
  split
  · show alookup (ainsert st.globalDefs d.name (leafSource d.loc)) k = _
    unfold ainsert
    split
    · rfl
    · simp [alookup_cons, hk]
  · rfl

theorem bind_export_exportDefs_other (st : FrontState) (d : Definition) (e : Bool)
    (k : String) (hk : k ≠ d.name) :
    alookup (bind_export st d e).exportDefs k = alookup st.exportDefs k := by
  unfold bind_export
  split
  · show alookup (ainsert st.exportDefs d.name (leafSource d.loc)) k = _
    unfold ainsert
    split
    · rfl
    · simp [alookup_cons, hk]
  · rfl

theorem bind_global_globalDefs_self (st : FrontState) (d : Definition) (g : Bool)
    (hn : d.name ≠ "_") (h : alookup st.globalDefs d.name = none) :
    (alookup (bind_global st d g).globalDefs d.name).isSome = g := by
  unfold bind_global
  split
  · rename_i hcond
    show (alookup (ainsert st.globalDefs d.name (leafSource d.loc)) d.name).isSome = g
    unfold ainsert
    rw [h]
    simp [alookup_cons, hcond.1]
  · rename_i hcond
    rw [h]
    rcases Decidable.em (g = true) with hg | hg
    · exact absurd ⟨hg, hn⟩ hcond
    · simp only [Bool.not_eq_true] at hg
      simp [hg]


theorem bind_export_exportDefs_self (st : FrontState) (d : Definition) (e : Bool)
    (hn : d.name ≠ "_") (h : alookup st.exportDefs d.name = none) :
    (alookup (bind_export st d e).exportDefs d.name).isSome = e := by
  unfold bind_export
  split
  · rename_i hcond
    show (alookup (ainsert st.exportDefs d.name (leafSource d.loc)) d.name).isSome = e
    unfold ainsert
    rw [h]
    simp [alookup_cons, hcond.1]
  · rename_i hcond
    rw [h]
    rcases Decidable.em (e = true) with he | he
    · exact absurd ⟨he, hn⟩ hcond
    · simp only [Bool.not_eq_true] at he
      simp [he]

theorem bindInsert_exportDefs (st : FrontState) (n : String) (d : Definition) :
    (bindInsert st n d).exportDefs = st.exportDefs := by
  unfold bindInsert; split <;> rfl

theorem bindInsert_globalDefs (st : FrontState) (n : String) (d : Definition) :
    (bindInsert st n d).globalDefs = st.globalDefs := by
  unfold bindInsert; split <;> rfl

theorem bindInsert_dup (st : FrontState) (n : String) (d : Definition)
    (v : DefValue) (h : alookup st.defs n = some v) :
    (bindInsert st n d).defs = st.defs ∧
    (bindInsert st n d).diags = st.diags ++ [⟨d.body.loc, .duplicateDef n v.body.loc⟩] := by
  unfold bindInsert
  rw [h]
  exact ⟨rfl, rfl⟩

theorem bindInsert_new (st : FrontState) (n : String) (d : Definition)
    (h : alookup st.defs n = none) :
    (bindInsert st n d).defs = (n, DefValue.mk d.loc d.body) :: st.defs ∧
    (bindInsert st n d).diags = st.diags := by
  unfold bindInsert
  rw [h]
  exact ⟨rfl, rfl⟩

theorem bindName_of_ne (st : FrontState) (d : Definition) (hn : d.name ≠ "_") :
    bindName st d = d.name := by
  unfold bindName
  simp [hn]

theorem bind_def_defs_mono (st : FrontState) (d : Definition) (e g : Bool)
    (k : String) (v : DefValue) (h : alookup st.defs k = some v) :
    alookup (bind_def st d e g).defs k = some v := by
  unfold bind_def
  have hd : (bind_export (bind_global st d g) d e).defs = st.defs := by
    rw [bind_export_defs, bind_global_defs]
  unfold bindInsert
  split
  · rename_i prev heq
    show alookup (bind_export (bind_global st d g) d e).defs k = some v
    rw [hd]; exact h
  · show alookup ((bindName st d, DefValue.mk d.loc d.body) ::
      (bind_export (bind_global st d g) d e).defs) k = some v
    rw [alookup_cons, hd]
    split
    · rename_i hkn
      rename_i heq
      rw [hd] at heq
      rw [hkn] at h
      rw [h] at heq
      cases heq
    · exact h

theorem bind_def_defs_other (st : FrontState) (d : Definition) (e g : Bool)
    (k : String) (hn : d.name ≠ "_") (hk : k ≠ d.name) :
    alookup (bind_def st d e g).defs k = alookup st.defs k := by
  unfold bind_def
  have hd : (bind_export (bind_global st d g) d e).defs = st.defs := by
    rw [bind_export_defs, bind_global_defs]
  unfold bindInsert
  split
  · show alookup (bind_export (bind_global st d g) d e).defs k = _
    rw [hd]
  · show alookup ((bindName st d, DefValue.mk d.loc d.body) ::
      (bind_export (bind_global st d g) d e).defs) k = _
    rw [alookup_cons, hd, bindName_of_ne st d hn]
    simp [hk]

theorem bind_def_defs_new (st : FrontState) (d : Definition) (e g : Bool)
    (hn : d.name ≠ "_") (h : alookup st.defs d.name = none) :
    alookup (bind_def st d e g).defs d.name = some ⟨d.loc, d.body⟩ := by
  unfold bind_def
  have hd : (bind_export (bind_global st d g) d e).defs = st.defs := by
    rw [bind_export_defs, bind_global_defs]
  have hnone : alookup (bind_export (bind_global st d g) d e).defs (bindName st d) = none := by
    rw [hd, bindName_of_ne st d hn]; exact h
  rw [(bindInsert_new _ _ d hnone).1, bindName_of_ne st d hn, alookup_cons]
  simp

theorem bind_def_diags_dup (st : FrontState) (d : Definition) (e g : Bool)
    (v : DefValue) (hn : d.name ≠ "_") (h : alookup st.defs d.name = some v) :
    (bind_def st d e g).defs = st.defs ∧
    (bind_def st d e g).diags =
      st.diags ++ [⟨d.body.loc, .duplicateDef d.name v.body.loc⟩] := by
  unfold bind_def
  have hd : (bind_export (bind_global st d g) d e).defs = st.defs := by
    rw [bind_export_defs, bind_global_defs]
  have hsome : alookup (bind_export (bind_global st d g) d e).defs (bindName st d) = some v := by
    rw [hd, bindName_of_ne st d hn]; exact h
  have hi := bindInsert_dup _ _ d _ hsome
  refine ⟨?_, ?_⟩
  · rw [hi.1, hd]
  · rw [hi.2, bind_export_diags, bind_global_diags, bindName_of_ne st d hn]

theorem bind_def_exportDefs_other (st : FrontState) (d : Definition) (e g : Bool)
    (k : String) (hk : k ≠ d.name) :
    alookup (bind_def st d e g).exportDefs k = alookup st.exportDefs k := by
  unfold bind_def
  rw [bindInsert_exportDefs, bind_export_exportDefs_other _ _ _ _ hk, bind_global_exportDefs]

theorem bind_def_globalDefs_other (st : FrontState) (d : Definition) (e g : Bool)
    (k : String) (hk : k ≠ d.name) :
    alookup (bind_def st d e g).globalDefs k = alookup st.globalDefs k := by
  unfold bind_def
  rw [bindInsert_globalDefs, bind_export_globalDefs, bind_global_globalDefs_other _ _ _ _ hk]

theorem bind_def_exportDefs_self (st : FrontState) (d : Definition) (e g : Bool)
    (hn : d.name ≠ "_") (h : alookup st.exportDefs d.name = none) :
    (alookup (bind_def st d e g).exportDefs d.name).isSome = e := by
  unfold bind_def
  rw [bindInsert_exportDefs]
  have h2 : alookup (bind_global st d g).exportDefs d.name = none := by
    rw [bind_global_exportDefs]; exact h
  exact bind_export_exportDefs_self _ _ _ hn h2

theorem bind_def_globalDefs_self (st : FrontState) (d : Definition) (e g : Bool)
    (hn : d.name ≠ "_") (h : alookup st.globalDefs d.name = none) :
    (alookup (bind_def st d e g).globalDefs d.name).isSome = g := by
  unfold bind_def
  rw [bindInsert_globalDefs, bind_export_globalDefs]
  exact bind_global_globalDefs_self st d g hn h

theorem bindAll_defs_mono (l : List (Definition × Bool × Bool)) :
    ∀ (st : FrontState) (k : String) (v : DefValue), alookup st.defs k = some v →
    alookup (bindAll st l).defs k = some v := by
  induction l with
  | nil => intro st k v h; exact h
  | cons hd tl ih =>
    intro st k v h
    obtain ⟨d, e, g⟩ := hd
    have hstep : bindAll st ((d, e, g) :: tl) = bindAll (bind_def st d e g) tl := rfl
    rw [hstep]
    exact ih _ _ _ (bind_def_defs_mono st d e g k v h)

theorem bindAll_exportDefs_other (l : List (Definition × Bool × Bool)) :
    ∀ (st : FrontState) (k : String), (∀ x ∈ l, x.1.name ≠ k) →
    alookup (bindAll st l).exportDefs k = alookup st.exportDefs k := by
  induction l with
  | nil => intro st k _; rfl
  | cons hd tl ih =>
    intro st k hne
    obtain ⟨d, e, g⟩ := hd
    have hstep : bindAll st ((d, e, g) :: tl) = bindAll (bind_def st d e g) tl := rfl
    rw [hstep, ih _ _ (fun y hy => hne y (List.mem_cons_of_mem _ hy))]
    exact bind_def_exportDefs_other st d e g k
      (Ne.symm (hne _ (List.mem_cons_self _ _)))

theorem bindAll_globalDefs_other (l : List (Definition × Bool × Bool)) :
    ∀ (st : FrontState) (k : String), (∀ x ∈ l, x.1.name ≠ k) →
    alookup (bindAll st l).globalDefs k = alookup st.globalDefs k := by
  induction l with
  | nil => intro st k _; rfl
  | cons hd tl ih =>
    intro st k hne
    obtain ⟨d, e, g⟩ := hd
    have hstep : bindAll st ((d, e, g) :: tl) = bindAll (bind_def st d e g) tl := rfl
    rw [hstep, ih _ _ (fun y hy => hne y (List.mem_cons_of_mem _ hy))]
    exact bind_def_globalDefs_other st d e g k
      (Ne.symm (hne _ (List.mem_cons_self _ _)))

theorem bindAll_props (l : List (Definition × Bool × Bool)) :
    ∀ st : FrontState,
    (∀ x ∈ l, x.1.name ≠ "_") →
    ((l.map fun x => x.1.name).Nodup) →
    (∀ x ∈ l, alookup st.defs x.1.name = none ∧ alookup st.exportDefs x.1.name = none ∧
      alookup st.globalDefs x.1.name = none) →
    ∀ x ∈ l, alookup (bindAll st l).defs x.1.name = some ⟨x.1.loc, x.1.body⟩ ∧
      (alookup (bindAll st l).exportDefs x.1.name).isSome = x.2.1 ∧
      (alookup (bindAll st l).globalDefs x.1.name).isSome = x.2.2 := by
  induction l with
  | nil => intro st _ _ _ x hx; cases hx
  | cons hd tl ih =>
    intro st hunder hnodup hclean x hx
    obtain ⟨d, e, g⟩ := hd
    have hstep : bindAll st ((d, e, g) :: tl) = bindAll (bind_def st d e g) tl := rfl
    rw [List.map_cons, List.nodup_cons] at hnodup
    cases hx with
    | head =>
      have hn := hunder _ (List.mem_cons_self _ _)
      have hc := hclean _ (List.mem_cons_self _ _)
      have hne : ∀ y ∈ tl, y.1.name ≠ (d, e, g).1.name := by
        intro y hy hcontra
        exact hnodup.1 (hcontra ▸ List.mem_map_of_mem _ hy)
      rw [hstep]
      refine ⟨bindAll_defs_mono tl _ _ _ (bind_def_defs_new st d e g hn hc.1), ?_, ?_⟩
      · rw [bindAll_exportDefs_other tl _ _ hne]
        exact bind_def_exportDefs_self st d e g hn hc.2.1
      · rw [bindAll_globalDefs_other tl _ _ hne]
        exact bind_def_globalDefs_self st d e g hn hc.2.2
    | tail _ hx2 =>
      have hn := hunder _ (List.mem_cons_self _ _)
      rw [hstep]
      refine ih (bind_def st d e g)
        (fun y hy => hunder y (List.mem_cons_of_mem _ hy)) hnodup.2 ?_ x hx2
      intro y hy
      have hyne : y.1.name ≠ d.name := fun hcontra =>
        hnodup.1 (hcontra ▸ List.mem_map_of_mem _ hy)
      have hc := hclean y (List.mem_cons_of_mem _ hy)
      refine ⟨?_, ?_, ?_⟩
      · rw [bind_def_defs_other st d e g _ hn hyne]; exact hc.1
      · rw [bind_def_exportDefs_other st d e g _ hyne]; exact hc.2.1
      · rw [bind_def_globalDefs_other st d e g _ hyne]; exact hc.2.2

theorem bindTypeGlobal_defs (st : FrontState) (n : String) (l : Location) (g : Bool) :
    (bindTypeGlobal st n l g).defs = st.defs := by
  unfold bindTypeGlobal; split <;> rfl

theorem bindTypeGlobal_exportDefs (st : FrontState) (n : String) (l : Location) (g : Bool) :
    (bindTypeGlobal st n l g).exportDefs = st.exportDefs := by
  unfold bindTypeGlobal; split <;> rfl

theorem bindTypeGlobal_globalDefs (st : FrontState) (n : String) (l : Location) (g : Bool) :
    (bindTypeGlobal st n l g).globalDefs = st.globalDefs := by
  unfold bindTypeGlobal; split <;> rfl

theorem bindTypeExport_defs (st : FrontState) (n : String) (l : Location) (e : Bool) :
    (bindTypeExport st n l e).defs = st.defs := by
  unfold bindTypeExport; split <;> rfl

theorem bindTypeExport_exportDefs (st : FrontState) (n : String) (l : Location) (e : Bool) :
    (bindTypeExport st n l e).exportDefs = st.exportDefs := by
  unfold bindTypeExport; split <;> rfl

theorem bindTypeExport_globalDefs (st : FrontState) (n : String) (l : Location) (e : Bool) :
    (bindTypeExport st n l e).globalDefs = st.globalDefs := by
  unfold bindTypeExport; split <;> rfl

theorem bindTypeInsert_defs (st : FrontState) (n : String) (l : Location) :
    (bindTypeInsert st n l).defs = st.defs := by
  unfold bindTypeInsert; split <;> rfl

theorem bindTypeInsert_exportDefs (st : FrontState) (n : String) (l : Location) :
    (bindTypeInsert st n l).exportDefs = st.exportDefs := by
  unfold bindTypeInsert; split <;> rfl

theorem bindTypeInsert_globalDefs (st : FrontState) (n : String) (l : Location) :
    (bindTypeInsert st n l).globalDefs = st.globalDefs := by
  unfold bindTypeInsert; split <;> rfl

theorem bind_type_defs (st : FrontState) (n : String) (l : Location) (e g : Bool) :
    (bind_type st n l e g).defs = st.defs := by
  unfold bind_type
  rw [bindTypeInsert_defs, bindTypeExport_defs, bindTypeGlobal_defs]

theorem bind_type_exportDefs (st : FrontState) (n : String) (l : Location) (e g : Bool) :
    (bind_type st n l e g).exportDefs = st.exportDefs := by
  unfold bind_type
  rw [bindTypeInsert_exportDefs, bindTypeExport_exportDefs, bindTypeGlobal_exportDefs]

theorem bind_type_globalDefs (st : FrontState) (n : String) (l : Location) (e g : Bool) :
    (bind_type st n l e g).globalDefs = st.globalDefs := by
  unfold bind_type
  rw [bindTypeInsert_globalDefs, bindTypeExport_globalDefs, bindTypeGlobal_globalDefs]

theorem dataNameDiag_defs (st : FrontState) (d : DataInput) :
    (dataNameDiag st d).defs = st.defs := by
  unfold dataNameDiag; split <;> rfl

theorem dataNameDiag_exportDefs (st : FrontState) (d : DataInput) :
    (dataNameDiag st d).exportDefs = st.exportDefs := by
  unfold dataNameDiag; split <;> rfl

theorem dataNameDiag_globalDefs (st : FrontState) (d : DataInput) :
    (dataNameDiag st d).globalDefs = st.globalDefs := by
  unfold dataNameDiag; split <;> rfl

theorem dataCtorDiag_defs (st : FrontState) (c : CtorDecl) :
    (dataCtorDiag st c).defs = st.defs := by
  unfold dataCtorDiag dataCtorLowerDiag dataCtorTagDiag
  split <;> split <;> rfl

theorem foldl_dataCtorDiag_defs (l : List CtorDecl) :
    ∀ st : FrontState, (l.foldl dataCtorDiag st).defs = st.defs := by
  induction l with
  | nil => intro st; rfl
  | cons hd tl ih =>
    intro st
    rw [List.foldl_cons, ih, dataCtorDiag_defs]

theorem tupleNameDiag_defs (st : FrontState) (t : TupleInput) :
    (tupleNameDiag st t).defs = st.defs := by
  unfold tupleNameDiag; split <;> rfl

theorem tupleNameDiag_exportDefs (st : FrontState) (t : TupleInput) :
    (tupleNameDiag st t).exportDefs = st.exportDefs := by
  unfold tupleNameDiag; split <;> rfl

theorem tupleNameDiag_globalDefs (st : FrontState) (t : TupleInput) :
    (tupleNameDiag st t).globalDefs = st.globalDefs := by
  unfold tupleNameDiag; split <;> rfl

/-- Claim C7: a name bound twice through `bind_def` reports an error located
at the second occurrence's body, mentioning the location of the first
occurrence's body, and leaves the map entry for that name unchanged, so the
first binding wins regardless of the order the duplicates are presented
(quantification over `st` covers every presentation order). -/
theorem bind_def_duplicate_first_wins (st : FrontState) (d : Definition) (e g : Bool)
    (v : DefValue) (hn : d.name ≠ "_") (hv : alookup st.defs d.name = some v) :
    (bind_def st d e g).defs = st.defs ∧
    alookup (bind_def st d e g).defs d.name = some v ∧
    (bind_def st d e g).diags =
      st.diags ++ [⟨d.body.loc, DiagMsg.duplicateDef d.name v.body.loc⟩] := by
  have h := bind_def_diags_dup st d e g v hn hv
  exact ⟨h.1, by rw [h.1]; exact hv, h.2⟩

/-- Witness for C7 at a concrete duplicate binding. -/
theorem bind_def_duplicate_first_wins_witness :
    (bind_def dupSt dupDef true false).defs = dupSt.defs ∧
    alookup (bind_def dupSt dupDef true false).defs "f" =
      some ⟨⟨1⟩, Expr.literal noFlags ⟨2⟩ "one"⟩ ∧
    (bind_def dupSt dupDef true false).diags =
      dupSt.diags ++ [⟨⟨4⟩, DiagMsg.duplicateDef "f" ⟨2⟩⟩] :=
  bind_def_duplicate_first_wins dupSt dupDef true false
    ⟨⟨1⟩, Expr.literal noFlags ⟨2⟩ "one"⟩ (by decide) rfl

theorem bindAll_defs_lookup (l : List (Definition × Bool × Bool)) :
    ∀ st : FrontState,
    (∀ x ∈ l, x.1.name ≠ "_") →
    ((l.map fun x => x.1.name).Nodup) →
    (∀ x ∈ l, alookup st.defs x.1.name = none) →
    ∀ x ∈ l, alookup (bindAll st l).defs x.1.name = some ⟨x.1.loc, x.1.body⟩ := by
  induction l with
  | nil => intro st _ _ _ x hx; cases hx
  | cons hd tl ih =>
    intro st hunder hnodup hclean x hx
    obtain ⟨d, e, g⟩ := hd
    have hstep : bindAll st ((d, e, g) :: tl) = bindAll (bind_def st d e g) tl := rfl
    rw [List.map_cons, List.nodup_cons] at hnodup
    cases hx with
    | head =>
      have hn := hunder _ (List.mem_cons_self _ _)
      have hc := hclean _ (List.mem_cons_self _ _)
      rw [hstep]
      exact bindAll_defs_mono tl _ _ _ (bind_def_defs_new st d e g hn hc)
    | tail _ hx2 =>
      have hn := hunder _ (List.mem_cons_self _ _)
      rw [hstep]
      refine ih (bind_def st d e g)
        (fun y hy => hunder y (List.mem_cons_of_mem _ hy)) hnodup.2 ?_ x hx2
      intro y hy
      have hyne : y.1.name ≠ d.name := fun hcontra =>
        hnodup.1 (hcontra ▸ List.mem_map_of_mem _ hy)
      rw [bind_def_defs_other st d e g _ hn hyne]
      exact hclean y (List.mem_cons_of_mem _ hy)

theorem dataCtorDefs_names (d : DataInput) :
    (dataCtorDefs d).map (fun x => x.1.name) = d.ctors.map CtorDecl.name := by
  unfold dataCtorDefs
  rw [List.map_map]
  rfl

/-- Claim C3: every `data` constructor `Ci` with `Ni` argument positions is
bound to `Construct(Sum, Ci)` wrapped in exactly `Ni` lambdas, each with
parameter name `_`; a zero-argument constructor is bound directly to
`Construct(Sum, Ci)` with no enclosing lambda. -/
theorem data_ctor_binding (st : FrontState) (d : DataInput)
    (hnodup : (d.ctors.map CtorDecl.name).Nodup)
    (hclean : ∀ c ∈ d.ctors, c.name ≠ "_" ∧ alookup st.defs c.name = none) :
    ∀ c ∈ d.ctors,
      alookup (parse_data st d).defs c.name =
        some ⟨c.token, nLambdas c.arity c.token
          (.construct noFlags c.token d.name c.name)⟩ ∧
      (c.arity = 0 →
        alookup (parse_data st d).defs c.name =
          some ⟨c.token, .construct noFlags c.token d.name c.name⟩) := by
  intro c hc
  have hmem : (Definition.mk c.name c.token (dataCtorExpr d.name c),
      d.flags.exportf, d.flags.globalf) ∈ dataCtorDefs d :=
    List.mem_map_of_mem _ hc
  have hunder : ∀ x ∈ dataCtorDefs d, x.1.name ≠ "_" := by
    intro x hx
    obtain ⟨c2, hc2, rfl⟩ := List.mem_map.mp hx
    exact (hclean c2 hc2).1
  have hnames : ((dataCtorDefs d).map fun x => x.1.name).Nodup := by
    rw [dataCtorDefs_names]; exact hnodup
  have hpre : ∀ x ∈ dataCtorDefs d,
      alookup (bind_type (d.ctors.foldl dataCtorDiag (dataNameDiag st d))
        d.name d.token d.flags.exportf d.flags.globalf).defs x.1.name = none := by
    intro x hx
    rw [bind_type_defs, foldl_dataCtorDiag_defs, dataNameDiag_defs]
    obtain ⟨c2, hc2, rfl⟩ := List.mem_map.mp hx
    exact (hclean c2 hc2).2
  have h := bindAll_defs_lookup (dataCtorDefs d) _ hunder hnames hpre _ hmem
  refine ⟨h, fun h0 => ?_⟩
  have hz : dataCtorExpr d.name c = Expr.construct noFlags c.token d.name c.name := by
    unfold dataCtorExpr
    rw [h0]
    rfl
  rw [hz] at h
  exact h

/-- Witness for C3 on `data Maybe a = Some a | None`: `Some` becomes one
lambda around the construction, `None` the bare construction. -/
theorem data_ctor_binding_witness :
    alookup (parse_data initState maybeData).defs "Some" =
      some ⟨⟨1⟩, Expr.lambda noFlags ⟨1⟩ "_" (.construct noFlags ⟨1⟩ "Maybe" "Some")⟩ ∧
    alookup (parse_data initState maybeData).defs "None" =
      some ⟨⟨2⟩, .construct noFlags ⟨2⟩ "Maybe" "None"⟩ := by
  have hclean : ∀ c ∈ maybeData.ctors, c.name ≠ "_" ∧
      alookup initState.defs c.name = none := by
    intro c hc
    refine ⟨?_, rfl⟩
    simp only [maybeData, List.mem_cons, List.not_mem_nil, or_false] at hc
    rcases hc with rfl | rfl <;> decide
  have h := data_ctor_binding initState maybeData (by decide) hclean
  exact ⟨(h _ (List.mem_cons_self _ _)).1,
    (h _ (List.mem_cons_of_mem _ (List.mem_cons_self _ _))).2 rfl⟩

theorem acc_append_inj (p T a b : String) (h : p ++ T ++ a = p ++ T ++ b) : a = b := by
  have h2 := congrArg String.data h
  simp only [String.data_append, List.append_assoc] at h2
  exact String.ext (List.append_cancel_left (List.append_cancel_left h2))

theorem ne_get_edit (T T2 a b : String) : "get" ++ T ++ a ≠ "edit" ++ T2 ++ b := by
  intro h
  have h2 := congrArg String.data h
  simp [String.data_append] at h2

theorem ne_get_set (T T2 a b : String) : "get" ++ T ++ a ≠ "set" ++ T2 ++ b := by
  intro h
  have h2 := congrArg String.data h
  simp [String.data_append] at h2

theorem ne_edit_set (T T2 a b : String) : "edit" ++ T ++ a ≠ "set" ++ T2 ++ b := by
  intro h
  have h2 := congrArg String.data h
  simp [String.data_append] at h2

theorem ne_tname_acc (p T a : String) (hp : 0 < p.length) : T ≠ p ++ T ++ a := by
  intro h
  have h2 := congrArg String.length h
  rw [String.length_append, String.length_append] at h2
  omega

theorem ne_get_underscore (T a : String) : "get" ++ T ++ a ≠ "_" := by
  intro h
  have h2 := congrArg String.data h
  simp [String.data_append] at h2

theorem ne_edit_underscore (T a : String) : "edit" ++ T ++ a ≠ "_" := by
  intro h
  have h2 := congrArg String.data h
  simp [String.data_append] at h2

theorem ne_set_underscore (T a : String) : "set" ++ T ++ a ≠ "_" := by
  intro h
  have h2 := congrArg String.data h
  simp [String.data_append] at h2

theorem upper_ne_underscore (s : String) (h : lex_kind s = .upper) : s ≠ "_" := by
  intro hc
  rw [hc] at h
  exact absurd h (by decide)

theorem setSynthetic_isSynthetic (e : Expr) : (Expr.setSynthetic e).isSynthetic = true := by
  cases e <;> rfl

theorem accTriple_nodup (T a : String) :
    (["get" ++ T ++ a, "edit" ++ T ++ a, "set" ++ T ++ a]).Nodup := by
  refine List.nodup_cons.mpr ⟨?_, List.nodup_cons.mpr ⟨?_, List.nodup_singleton _⟩⟩
  · simp only [List.mem_cons, List.not_mem_nil, or_false]
    rintro (h | h)
    · exact ne_get_edit T T a a h
    · exact ne_get_set T T a a h
  · simp only [List.mem_singleton]
    intro h
    exact ne_edit_set T T a a h

theorem accTriple_disjoint (T a b : String) (hab : a ≠ b) :
    List.Disjoint ["get" ++ T ++ a, "edit" ++ T ++ a, "set" ++ T ++ a]
      ["get" ++ T ++ b, "edit" ++ T ++ b, "set" ++ T ++ b] := by
  intro x hx hy
  simp only [List.mem_cons, List.not_mem_nil, or_false] at hx hy
  rcases hx with rfl | rfl | rfl
  · rcases hy with h | h | h
    · exact hab (acc_append_inj "get" T a b h)
    · exact ne_get_edit T T a b h
    · exact ne_get_set T T a b h
  · rcases hy with h | h | h
    · exact ne_get_edit T T b a h.symm
    · exact hab (acc_append_inj "edit" T a b h)
    · exact ne_edit_set T T a b h
  · rcases hy with h | h | h
    · exact ne_get_set T T b a h.symm
    · exact ne_edit_set T T b a h.symm
    · exact hab (acc_append_inj "set" T a b h)

theorem tupleAccessorDefs_names (T : String) (total : Nat) :
    ∀ (fields : List TupleField) (i0 o0 : Nat),
    (tupleAccessorDefs T total fields i0 o0).map (fun x => x.1.name) =
    (fields.filter fun f => lex_kind f.tag == SymKind.upper).flatMap
      (fun f => ["get" ++ T ++ f.tag, "edit" ++ T ++ f.tag, "set" ++ T ++ f.tag]) := by
  intro fields
  induction fields with
  | nil => intro i0 o0; rfl
  | cons fhd ftl ih =>
    intro i0 o0
    by_cases hh : lex_kind fhd.tag = .upper
    · simp only [tupleAccessorDefs, if_pos hh, List.map_cons, ih,
        List.filter_cons, hh, beq_self_eq_true, if_true, List.flatMap_cons,
        List.cons_append, List.nil_append]
    · have hb : (lex_kind fhd.tag == SymKind.upper) = false := by
        simp [hh]
      simp only [tupleAccessorDefs, if_neg hh, ih, List.filter_cons, hb,
        Bool.false_eq_true, if_false]

theorem tupleDefs_names_nodup (t : TupleInput)
    (htags : (t.fields.map TupleField.tag).Nodup) :
    ((tupleDefs t).map fun x => x.1.name).Nodup := by
  unfold tupleDefs
  rw [List.map_cons, List.nodup_cons, tupleAccessorDefs_names]
  constructor
  · intro hmem
    obtain ⟨f, _, hin⟩ := List.mem_flatMap.mp hmem
    simp only [List.mem_cons, List.not_mem_nil, or_false] at hin
    rcases hin with h | h | h
    · exact ne_tname_acc "get" t.name f.tag (by decide) h
    · exact ne_tname_acc "edit" t.name f.tag (by decide) h
    · exact ne_tname_acc "set" t.name f.tag (by decide) h
  · rw [List.nodup_flatMap]
    constructor
    · intro f _
      exact accTriple_nodup t.name f.tag
    · have hsub : ((t.fields.filter fun f => lex_kind f.tag == SymKind.upper).map
          TupleField.tag).Nodup :=
        List.Nodup.sublist (List.Sublist.map _ (List.filter_sublist _)) htags
      have hpw := List.pairwise_map.mp hsub
      refine hpw.imp ?_
      intro f g hfg
      exact accTriple_disjoint t.name f.tag g.tag hfg

theorem tupleAccessorDefs_mem (T : String) (total : Nat) :
    ∀ (fields : List TupleField) (i0 o0 k : Nat) (f : TupleField),
    fields[k]? = some f → lex_kind f.tag = .upper →
    ∃ outer,
      (Definition.mk ("get" ++ T ++ f.tag) f.region (tupleGetFn T f.region (i0 + k)),
        f.flags.exportf, f.flags.globalf) ∈ tupleAccessorDefs T total fields i0 o0 ∧
      (Definition.mk ("edit" ++ T ++ f.tag) f.region
          (tupleEditFn T f.region total outer f.tag),
        f.flags.exportf, f.flags.globalf) ∈ tupleAccessorDefs T total fields i0 o0 ∧
      (Definition.mk ("set" ++ T ++ f.tag) f.region
          (tupleSetFn T f.region total outer f.tag),
        f.flags.exportf, f.flags.globalf) ∈ tupleAccessorDefs T total fields i0 o0 := by
  intro fields
  induction fields with
  | nil => intro i0 o0 k f hk; simp at hk
  | cons fhd ftl ih =>
    intro i0 o0 k f hk hupper
    cases k with
    | zero =>
      have hf : fhd = f := by simpa using hk
      subst hf
      refine ⟨o0, ?_, ?_, ?_⟩
      · simp only [tupleAccessorDefs, if_pos hupper, Nat.add_zero]
        exact List.mem_cons_self _ _
      · simp only [tupleAccessorDefs, if_pos hupper]
        exact List.mem_cons_of_mem _ (List.mem_cons_self _ _)
      · simp only [tupleAccessorDefs, if_pos hupper]
        exact List.mem_cons_of_mem _ (List.mem_cons_of_mem _ (List.mem_cons_self _ _))
    | succ k2 =>
      have hk2 : ftl[k2]? = some f := by simpa using hk
      have harith : i0 + 1 + k2 = i0 + (k2 + 1) := by omega
      by_cases hh : lex_kind fhd.tag = .upper
      · obtain ⟨outer, h1, h2, h3⟩ := ih (i0 + 1) (o0 + 1) k2 f hk2 hupper
        rw [harith] at h1
        refine ⟨outer, ?_, ?_, ?_⟩
        · simp only [tupleAccessorDefs, if_pos hh]
          exact List.mem_cons_of_mem _ (List.mem_cons_of_mem _ (List.mem_cons_of_mem _ h1))
        · simp only [tupleAccessorDefs, if_pos hh]
          exact List.mem_cons_of_mem _ (List.mem_cons_of_mem _ (List.mem_cons_of_mem _ h2))
        · simp only [tupleAccessorDefs, if_pos hh]
          exact List.mem_cons_of_mem _ (List.mem_cons_of_mem _ (List.mem_cons_of_mem _ h3))
      · obtain ⟨outer, h1, h2, h3⟩ := ih (i0 + 1) o0 k2 f hk2 hupper
        rw [harith] at h1
        refine ⟨outer, ?_, ?_, ?_⟩
        · simp only [tupleAccessorDefs, if_neg hh]
          exact h1
        · simp only [tupleAccessorDefs, if_neg hh]
          exact h2
        · simp only [tupleAccessorDefs, if_neg hh]
          exact h3

theorem tupleEditFn_isSynthetic (T : String) (mt : Location) (total outer : Nat)
    (mname : String) : (tupleEditFn T mt total outer mname).isSynthetic = true := by
  unfold tupleEditFn
  exact setSynthetic_isSynthetic _

theorem tupleSetFn_isSynthetic (T : String) (mt : Location) (total outer : Nat)
    (mname : String) : (tupleSetFn T mt total outer mname).isSynthetic = true := by
  unfold tupleSetFn
  exact setSynthetic_isSynthetic _

/-- Claim C1 (amended): for every tuple declaration `tuple T = f1: t1 | …`
and every field `fi` at index `i` *whose name is upper-case* (the accessor
loop skips other fields), three definitions `getTfi`, `setTfi`, `editTfi`
are added to the file's `DefMap`; `getTfi` is `\_. Get(Sum, Ctor, i)`; all
three carry `FLAG_SYNTHETIC`; and each accessor's export/global visibility
equals the flags on that individual field — for every value of the type's own
flags `t.flags`, so independently of the visibility of `T`. -/
theorem tuple_accessors_per_field (st : FrontState) (t : TupleInput) (k : Nat)
    (f : TupleField)
    (hf : t.fields[k]? = some f)
    (hupper : lex_kind f.tag = .upper)
    (htname : lex_kind t.name = .upper)
    (htags : (t.fields.map TupleField.tag).Nodup)
    (hclean : ∀ x ∈ tupleDefs t, alookup st.defs x.1.name = none ∧
      alookup st.exportDefs x.1.name = none ∧ alookup st.globalDefs x.1.name = none) :
    alookup (parse_tuple st t).defs ("get" ++ t.name ++ f.tag) =
      some ⟨f.region, Expr.setSynthetic (.lambda noFlags f.region "_"
        (.get noFlags f.region t.name t.name k))⟩ ∧
    (Expr.setSynthetic (.lambda noFlags f.region "_"
        (.get noFlags f.region t.name t.name k))).isSynthetic = true ∧
    (∃ v, alookup (parse_tuple st t).defs ("edit" ++ t.name ++ f.tag) = some v ∧
      v.body.isSynthetic = true) ∧
    (∃ v, alookup (parse_tuple st t).defs ("set" ++ t.name ++ f.tag) = some v ∧
      v.body.isSynthetic = true) ∧
    (alookup (parse_tuple st t).exportDefs ("get" ++ t.name ++ f.tag)).isSome
      = f.flags.exportf ∧
    (alookup (parse_tuple st t).exportDefs ("edit" ++ t.name ++ f.tag)).isSome
      = f.flags.exportf ∧
    (alookup (parse_tuple st t).exportDefs ("set" ++ t.name ++ f.tag)).isSome
      = f.flags.exportf ∧
    (alookup (parse_tuple st t).globalDefs ("get" ++ t.name ++ f.tag)).isSome
      = f.flags.globalf ∧
    (alookup (parse_tuple st t).globalDefs ("edit" ++ t.name ++ f.tag)).isSome
      = f.flags.globalf ∧
    (alookup (parse_tuple st t).globalDefs ("set" ++ t.name ++ f.tag)).isSome
      = f.flags.globalf := by
  obtain ⟨outer, hg, he, hs⟩ :=
    tupleAccessorDefs_mem t.name t.fields.length t.fields 0 0 k f hf hupper
  rw [Nat.zero_add] at hg
  have hg2 : (Definition.mk ("get" ++ t.name ++ f.tag) f.region
      (tupleGetFn t.name f.region k), f.flags.exportf, f.flags.globalf) ∈ tupleDefs t :=
    List.mem_cons_of_mem _ hg
  have he2 : (Definition.mk ("edit" ++ t.name ++ f.tag) f.region
      (tupleEditFn t.name f.region t.fields.length outer f.tag),
      f.flags.exportf, f.flags.globalf) ∈ tupleDefs t :=
    List.mem_cons_of_mem _ he
  have hs2 : (Definition.mk ("set" ++ t.name ++ f.tag) f.region
      (tupleSetFn t.name f.region t.fields.length outer f.tag),
      f.flags.exportf, f.flags.globalf) ∈ tupleDefs t :=
    List.mem_cons_of_mem _ hs
  have hunder : ∀ x ∈ tupleDefs t, x.1.name ≠ "_" := by
    intro x hx
    cases hx with
    | head => exact upper_ne_underscore t.name htname
    | tail _ hx2 =>
      have hname : x.1.name ∈ (tupleAccessorDefs t.name t.fields.length
          t.fields 0 0).map (fun x => x.1.name) := List.mem_map_of_mem _ hx2
      rw [tupleAccessorDefs_names] at hname
      obtain ⟨f2, _, hin⟩ := List.mem_flatMap.mp hname
      simp only [List.mem_cons, List.not_mem_nil, or_false] at hin
      rcases hin with h | h | h
      · rw [h]; exact ne_get_underscore t.name f2.tag
      · rw [h]; exact ne_edit_underscore t.name f2.tag
      · rw [h]; exact ne_set_underscore t.name f2.tag
  have hnodup := tupleDefs_names_nodup t htags
  have hpre : ∀ x ∈ tupleDefs t,
      alookup (bind_type (tupleNameDiag st t) t.name t.token
        t.flags.exportf t.flags.globalf).defs x.1.name = none ∧
      alookup (bind_type (tupleNameDiag st t) t.name t.token
        t.flags.exportf t.flags.globalf).exportDefs x.1.name = none ∧
      alookup (bind_type (tupleNameDiag st t) t.name t.token
        t.flags.exportf t.flags.globalf).globalDefs x.1.name = none := by
    intro x hx
    obtain ⟨h1, h2, h3⟩ := hclean x hx
    refine ⟨?_, ?_, ?_⟩
    · rw [bind_type_defs, tupleNameDiag_defs]; exact h1
    · rw [bind_type_exportDefs, tupleNameDiag_exportDefs]; exact h2
    · rw [bind_type_globalDefs, tupleNameDiag_globalDefs]; exact h3
  have H := bindAll_props (tupleDefs t) _ hunder hnodup hpre
  have Hg := H _ hg2
  have He := H _ he2
  have Hs := H _ hs2
  exact ⟨Hg.1, setSynthetic_isSynthetic _,
    ⟨_, He.1, tupleEditFn_isSynthetic _ _ _ _ _⟩,
    ⟨_, Hs.1, tupleSetFn_isSynthetic _ _ _ _ _⟩,
    Hg.2.1, He.2.1, Hs.2.1, Hg.2.2, He.2.2, Hs.2.2⟩

/-- Witness for the amended C1 on field `X` of `pointTuple`. -/
theorem tuple_accessors_per_field_witness :
    alookup (parse_tuple initState pointTuple).defs "getPointX" =
      some ⟨⟨2⟩, Expr.setSynthetic (.lambda noFlags ⟨2⟩ "_"
        (.get noFlags ⟨2⟩ "Point" "Point" 0))⟩ ∧
    (Expr.setSynthetic (.lambda noFlags ⟨2⟩ "_"
        (.get noFlags ⟨2⟩ "Point" "Point" 0))).isSynthetic = true ∧
    (∃ v, alookup (parse_tuple initState pointTuple).defs "editPointX" = some v ∧
      v.body.isSynthetic = true) ∧
    (∃ v, alookup (parse_tuple initState pointTuple).defs "setPointX" = some v ∧
      v.body.isSynthetic = true) ∧
    (alookup (parse_tuple initState pointTuple).exportDefs "getPointX").isSome = true ∧
    (alookup (parse_tuple initState pointTuple).exportDefs "editPointX").isSome = true ∧
    (alookup (parse_tuple initState pointTuple).exportDefs "setPointX").isSome = true ∧
    (alookup (parse_tuple initState pointTuple).globalDefs "getPointX").isSome = false ∧
    (alookup (parse_tuple initState pointTuple).globalDefs "editPointX").isSome = false ∧
    (alookup (parse_tuple initState pointTuple).globalDefs "setPointX").isSome = false :=
  tuple_accessors_per_field initState pointTuple 0 ⟨⟨true, false⟩, "X", ⟨2⟩⟩
    rfl rfl rfl (by decide) (fun _ _ => ⟨rfl, rfl, rfl⟩)

/-- Counterexample to C1 as stated: for the tuple `tuple T = x: Integer`,
whose single field `x` (index 0) is lower-case, *no* `getTx` definition is
added to the DefMap at all — `parse_tuple` skips fields whose name is not
upper-case (`if (lex_kind(mname) != UPPER) continue;`, todst.cpp:1201), so
"three definitions are added for every field" fails at this input. -/
theorem tuple_accessors_counterexample :
    alookup (parse_tuple initState lowerFieldTuple).defs "getTx" = none ∧
    alookup (parse_tuple initState lowerFieldTuple).defs "setTx" = none ∧
    alookup (parse_tuple initState lowerFieldTuple).defs "editTx" = none := by
  exact ⟨rfl, rfl, rfl⟩

/-- Claim C2 (the spec-intended lowering, and the gap in the code): the
non-extract path of `parse_def` does lower `def f x1 … xN = body` with plain
lower-case untyped arguments to `f = \x1 … \xN. body`; but `dst_top`'s
dispatch switch has its `CST_DEF` case commented out (todst.cpp:1423), so a
file consisting of one `def` yields an *empty* `DefMap` — the binding the
claim requires never reaches the map. -/
theorem def_lowering_dropped_by_dst_top :
    (∀ d : DefDecl, (∀ a ∈ d.args, lex_kind a.name = .lower ∧ a.typeAnn = none) →
      d.typeAnn = none →
      parse_def_simple d = ⟨d.name, d.token,
        d.args.foldr (fun a acc => Expr.lambda noFlags d.fnLoc a.name acc) d.body⟩) ∧
    (∀ (d : DefDecl) (filename : String), (dst_top filename [.defItem d]).defs = []) := by
  constructor
  · intro d hargs htype
    have hpat : (d.args.any fun a =>
        lex_kind a.name == SymKind.op || lex_kind a.name == SymKind.upper) = false := by
      rw [List.any_eq_false]
      intro a ha
      simp [(hargs a ha).1]
    have htyped : (d.args.any fun a => a.typeAnn.isSome) = false := by
      rw [List.any_eq_false]
      intro a ha
      simp [(hargs a ha).2]
    simp only [parse_def_simple, hpat, htyped, Bool.false_eq_true, if_false, htype]
    rw [List.foldr_map]
  · intro d filename
    rfl

/-- Witness for C2 at `def f x y = x`: the lowering wraps the body in two
lambdas, yet `dst_top` on a file holding only that `def` binds nothing. -/
theorem def_lowering_dropped_by_dst_top_witness :
    parse_def_simple fxyDef = ⟨"f", ⟨1⟩,
      Expr.lambda noFlags ⟨2⟩ "x" (Expr.lambda noFlags ⟨2⟩ "y"
        (Expr.varRef noFlags ⟨7⟩ "x"))⟩ ∧
    (dst_top "test.wake" [.defItem fxyDef]).defs = [] := by
  constructor
  · have h := def_lowering_dropped_by_dst_top.1 fxyDef ?_ rfl
    · exact h
    · intro a ha
      simp only [fxyDef, List.mem_cons, List.not_mem_nil, or_false] at ha
      rcases ha with rfl | rfl <;> exact ⟨rfl, rfl⟩
  · exact def_lowering_dropped_by_dst_top.2 fxyDef "test.wake"

/-- Claim C5: when the next input byte is `}`, `ingest` picks the lexer entry
point by peeking the parser's shift table — `lex_dstr` if `STR_CLOSE` can be
shifted, else `lex_rstr` if `REG_CLOSE` can, else `lex_wake`; for any other
next byte it always calls `lex_wake` irrespective of the parser state, so the
peek is the only coupling of parser state into lexing. -/
theorem lexer_dispatch_on_brace (s r : Bool) (b : Char) (hb : b ≠ '}') :
    chooseLexer '}' true r = .dstr ∧
    chooseLexer '}' false true = .rstr ∧
    chooseLexer '}' false false = .wake ∧
    chooseLexer b s r = .wake := by
  refine ⟨rfl, rfl, rfl, ?_⟩
  unfold chooseLexer
  rw [if_neg hb]

/-- Witness for C5 at concrete bytes and parser states. -/
theorem lexer_dispatch_on_brace_witness :
    chooseLexer '}' true true = .dstr ∧
    chooseLexer '}' false true = .rstr ∧
    chooseLexer '}' false false = .wake ∧
    chooseLexer 'a' true true = .wake :=
  lexer_dispatch_on_brace true true 'a' (by decide)

theorem importTargetSet_diags (st : FrontState) (k : ImpKind)
    (m : List (String × SymbolSource)) : (importTargetSet st k m).diags = st.diags := by
  cases k <;> rfl

theorem importItemResult_none (ia : ImportArity) (pkg : String) (loc : Location)
    (k1 : IdKind) (n1 : String) :
    importItemResult ia pkg ⟨loc, k1, n1, none⟩ =
      (false, if k1 = .op then prefix_op ia n1 else n1,
       if k1 = .op then prefix_op ia (n1 ++ "@" ++ pkg) else n1 ++ "@" ++ pkg) := rfl

theorem importItemResult_some (ia : ImportArity) (pkg : String) (loc : Location)
    (k1 : IdKind) (n1 : String) (k2 : IdKind) (n2 : String) :
    importItemResult ia pkg ⟨loc, k1, n1, some (k2, n2)⟩ =
      if k2 = k1 ∨ ia.binary = true ∨ ia.unary = true then
        (false, if k1 = .op then prefix_op ia n1 else n1,
         if k2 = .op then prefix_op ia (n2 ++ "@" ++ pkg) else n2 ++ "@" ++ pkg)
      else
        (true, if k2 = .op then prefix_op ia n2 else n2,
         if k2 = .op then prefix_op ia (n2 ++ "@" ++ pkg) else n2 ++ "@" ++ pkg) := rfl

theorem prefix_op_eq (ia : ImportArity) (n : String) :
    prefix_op ia n =
      (if ia.unary then "unary " else if ia.binary then "binary " else "op ") ++ n := by
  unfold prefix_op
  split
  · rfl
  · split <;> rfl

/-- Claim C6: an import element whose local and source symbols are of
different kinds (identifier vs operator), in a clause carrying neither
`unary` nor `binary`, makes `parse_import` report an error diagnostic; and
every operator name in an import element is rewritten by prefixing
`unary ` when the `unary` keyword is present, `binary ` when `binary` is
present, and `op ` when neither is. -/
theorem import_op_arity_rules (st : FrontState) (c : ImportClause) (it : ImportItem)
    (k2 : IdKind) (n2 : String) (ia : ImportArity) (pkg : String) (it2 : ImportItem) :
    (c.items = [it] → it.rest = some (k2, n2) → k2 ≠ it.kind1 →
      c.arity.unary = false → c.arity.binary = false →
      ∃ tail, (parse_import st c).diags =
        st.diags ++ ⟨it.loc, DiagMsg.importKindChange c.pkg⟩ :: tail) ∧
    (it2.rest = some (k2, n2) →
      ((importItemResult ia pkg it2).1 = true ↔
        (k2 ≠ it2.kind1 ∧ ia.unary = false ∧ ia.binary = false))) ∧
    (it2.rest = none → it2.kind1 = .op →
      (importItemResult ia pkg it2).2.1 =
        (if ia.unary then "unary " else if ia.binary then "binary " else "op ")
          ++ it2.name1 ∧
      (importItemResult ia pkg it2).2.2 =
        (if ia.unary then "unary " else if ia.binary then "binary " else "op ")
          ++ (it2.name1 ++ "@" ++ pkg)) ∧
    (it2.rest = some (k2, n2) → (k2 = it2.kind1 ∨ ia.binary = true ∨ ia.unary = true) →
      (it2.kind1 = .op →
        (importItemResult ia pkg it2).2.1 =
          (if ia.unary then "unary " else if ia.binary then "binary " else "op ")
            ++ it2.name1) ∧
      (k2 = .op →
        (importItemResult ia pkg it2).2.2 =
          (if ia.unary then "unary " else if ia.binary then "binary " else "op ")
            ++ (n2 ++ "@" ++ pkg))) ∧
    (it2.rest = some (k2, n2) → k2 ≠ it2.kind1 →
      ia.unary = false → ia.binary = false → k2 = .op →
      (importItemResult ia pkg it2).2.1 = "op " ++ n2 ∧
      (importItemResult ia pkg it2).2.2 = "op " ++ (n2 ++ "@" ++ pkg)) := by
  obtain ⟨loc1, kind1, name1, rest1⟩ := it
  obtain ⟨loc2, kindA, nameA, restA⟩ := it2
  refine ⟨?_, ?_, ?_, ?_, ?_⟩
  · intro h1 h2 h3 h4 h5
    simp only at h2
    subst h2
    have hr : (importItemResult c.arity c.pkg ⟨loc1, kind1, name1, some (k2, n2)⟩).1
        = true := by
      rw [importItemResult_some, if_neg]
      rintro (h | h | h)
      · exact h3 h
      · rw [h5] at h; cases h
      · rw [h4] at h; cases h
    have hne : c.items.isEmpty = false := by rw [h1]; rfl
    unfold parse_import
    rw [hne]
    simp only [Bool.false_eq_true, if_false, h1, List.foldl_cons, List.foldl_nil]
    unfold importOne
    rw [show importKindDiag
        (importItemResult c.arity c.pkg ⟨loc1, kind1, name1, some (k2, n2)⟩).1
        loc1 c.pkg st =
        { st with diags := st.diags ++ [⟨loc1, DiagMsg.importKindChange c.pkg⟩] } from by
      unfold importKindDiag
      rw [if_pos hr]]
    unfold importInsert
    split
    · rename_i prev hprev
      refine ⟨[⟨loc1, DiagMsg.duplicateImport
          (importItemResult c.arity c.pkg ⟨loc1, kind1, name1, some (k2, n2)⟩).2.1
          prev.loc⟩], ?_⟩
      simp [List.append_assoc]
    · refine ⟨[], ?_⟩
      rw [importTargetSet_diags]
  · intro h2
    simp only at h2
    subst h2
    rw [importItemResult_some]
    split
    · rename_i hcond
      simp only [Bool.false_eq_true, false_iff]
      rintro ⟨ha, hu, hb⟩
      rcases hcond with h | h | h
      · exact ha h
      · rw [hb] at h; cases h
      · rw [hu] at h; cases h
    · rename_i hcond
      simp only [true_iff]
      refine ⟨fun h => hcond (Or.inl h), ?_, ?_⟩
      · rcases Decidable.em (ia.unary = true) with h | h
        · exact absurd (Or.inr (Or.inr h)) hcond
        · simpa using h
      · rcases Decidable.em (ia.binary = true) with h | h
        · exact absurd (Or.inr (Or.inl h)) hcond
        · simpa using h
  · intro h2 hop
    simp only at h2 hop
    subst h2
    subst hop
    rw [importItemResult_none]
    simp only [if_pos rfl]
    exact ⟨prefix_op_eq ia nameA, prefix_op_eq ia (nameA ++ "@" ++ pkg)⟩
  · intro h2 hcond
    simp only at h2
    subst h2
    rw [importItemResult_some, if_pos hcond]
    constructor
    · intro hop
      simp only at hop
      subst hop
      simp only [if_pos rfl]
      exact prefix_op_eq ia nameA
    · intro hop
      subst hop
      simp only [if_pos rfl]
      exact prefix_op_eq ia (n2 ++ "@" ++ pkg)
  · intro h2 h3 h4 h5 hop
    simp only at h2 h3
    subst h2
    subst hop
    rw [importItemResult_some, if_neg]
    · simp only [if_pos rfl, prefix_op_eq, h4, h5, Bool.false_eq_true, if_false]
      exact ⟨rfl, rfl⟩
    · rintro (h | h | h)
      · exact h3 h
      · rw [h5] at h; cases h
      · rw [h4] at h; cases h

/-- Witness for C6: the kind-changing element without `unary`/`binary`
produces the error diagnostic. -/
theorem import_op_arity_rules_witness :
    ∃ tail, (parse_import initState kindChangeClause).diags =
      initState.diags ++ ⟨⟨9⟩, DiagMsg.importKindChange "q"⟩ :: tail :=
  (import_op_arity_rules initState kindChangeClause kindChangeItem .op "+"
    ⟨false, false⟩ "q" kindChangeItem).1 rfl rfl (by decide) rfl rfl

theorem frameOK_refl (st : FrontState) : FrameOK st st :=
  ⟨rfl, rfl, [], (List.append_nil _).symm⟩

theorem frameOK_trans {a b c : FrontState} (h1 : FrameOK a b) (h2 : FrameOK b c) :
    FrameOK a c := by
  obtain ⟨p1, i1, t1, d1⟩ := h1
  obtain ⟨p2, i2, t2, d2⟩ := h2
  exact ⟨p2.trans p1, i2.trans i1, t1 ++ t2, by rw [d2, d1, List.append_assoc]⟩

theorem frame_bind_global (st : FrontState) (d : Definition) (g : Bool) :
    FrameOK st (bind_global st d g) := by
  unfold bind_global
  split
  · exact ⟨rfl, rfl, [], (List.append_nil _).symm⟩
  · exact frameOK_refl _

theorem frame_bind_export (st : FrontState) (d : Definition) (e : Bool) :
    FrameOK st (bind_export st d e) := by
  unfold bind_export
  split
  · exact ⟨rfl, rfl, [], (List.append_nil _).symm⟩
  · exact frameOK_refl _

theorem frame_bindInsert (st : FrontState) (n : String) (d : Definition) :
    FrameOK st (bindInsert st n d) := by
  unfold bindInsert
  split
  · exact ⟨rfl, rfl, _, rfl⟩
  · exact ⟨rfl, rfl, [], (List.append_nil _).symm⟩

theorem frame_bind_def (st : FrontState) (d : Definition) (e g : Bool) :
    FrameOK st (bind_def st d e g) := by
  unfold bind_def
  exact frameOK_trans (frameOK_trans (frame_bind_global st d g)
    (frame_bind_export _ d e)) (frame_bindInsert _ _ d)

theorem frame_bindAll (l : List (Definition × Bool × Bool)) :
    ∀ st : FrontState, FrameOK st (bindAll st l) := by
  induction l with
  | nil => intro st; exact frameOK_refl st
  | cons hd tl ih =>
    intro st
    obtain ⟨d, e, g⟩ := hd
    exact frameOK_trans (frame_bind_def st d e g) (ih _)

theorem frame_bindTypeGlobal (st : FrontState) (n : String) (l : Location) (g : Bool) :
    FrameOK st (bindTypeGlobal st n l g) := by
  unfold bindTypeGlobal
  split
  · exact ⟨rfl, rfl, [], (List.append_nil _).symm⟩
  · exact frameOK_refl _

theorem frame_bindTypeExport (st : FrontState) (n : String) (l : Location) (e : Bool) :
    FrameOK st (bindTypeExport st n l e) := by
  unfold bindTypeExport
  split
  · exact ⟨rfl, rfl, [], (List.append_nil _).symm⟩
  · exact frameOK_refl _

theorem frame_bindTypeInsert (st : FrontState) (n : String) (l : Location) :
    FrameOK st (bindTypeInsert st n l) := by
  unfold bindTypeInsert
  split
  · exact ⟨rfl, rfl, _, rfl⟩
  · exact ⟨rfl, rfl, [], (List.append_nil _).symm⟩

theorem frame_bind_type (st : FrontState) (n : String) (l : Location) (e g : Bool) :
    FrameOK st (bind_type st n l e g) := by
  unfold bind_type
  exact frameOK_trans (frameOK_trans (frame_bindTypeGlobal st n l g)
    (frame_bindTypeExport _ n l e)) (frame_bindTypeInsert _ n l)

theorem frame_dataNameDiag (st : FrontState) (d : DataInput) :
    FrameOK st (dataNameDiag st d) := by
  unfold dataNameDiag
  split
  · exact ⟨rfl, rfl, _, rfl⟩
  · exact frameOK_refl _

theorem frame_dataCtorDiag (st : FrontState) (c : CtorDecl) :
    FrameOK st (dataCtorDiag st c) := by
  unfold dataCtorDiag
  refine frameOK_trans (b := dataCtorTagDiag st c) ?_ ?_
  · unfold dataCtorTagDiag
    split
    · exact ⟨rfl, rfl, _, rfl⟩
    · exact frameOK_refl _
  · unfold dataCtorLowerDiag
    split
    · exact ⟨rfl, rfl, _, rfl⟩
    · exact frameOK_refl _

theorem frame_foldl_dataCtorDiag (l : List CtorDecl) :
    ∀ st : FrontState, FrameOK st (l.foldl dataCtorDiag st) := by
  induction l with
  | nil => intro st; exact frameOK_refl st
  | cons hd tl ih =>
    intro st
    exact frameOK_trans (frame_dataCtorDiag st hd) (ih _)

theorem frame_parse_data (st : FrontState) (d : DataInput) :
    FrameOK st (parse_data st d) := by
  unfold parse_data
  exact frameOK_trans (frameOK_trans (frameOK_trans (frame_dataNameDiag st d)
    (frame_foldl_dataCtorDiag d.ctors _)) (frame_bind_type _ _ _ _ _))
    (frame_bindAll _ _)

theorem frame_tupleNameDiag (st : FrontState) (t : TupleInput) :
    FrameOK st (tupleNameDiag st t) := by
  unfold tupleNameDiag
  split
  · exact ⟨rfl, rfl, _, rfl⟩
  · exact frameOK_refl _

theorem frame_parse_tuple (st : FrontState) (t : TupleInput) :
    FrameOK st (parse_tuple st t) := by
  unfold parse_tuple
  exact frameOK_trans (frameOK_trans (frame_tupleNameDiag st t)
    (frame_bind_type _ _ _ _ _)) (frame_bindAll _ _)

theorem frame_exportOne (k : ExpKind) (ia : ImportArity) (pkg : String)
    (st : FrontState) (it : ImportItem) : FrameOK st (exportOne k ia pkg st it) := by
  simp only [exportOne]
  split
  · exact ⟨rfl, rfl, _, rfl⟩
  · cases k <;>
      · split
        · exact ⟨rfl, rfl, _, rfl⟩
        · exact ⟨rfl, rfl, [], (List.append_nil _).symm⟩

theorem frame_foldl_exportOne (k : ExpKind) (ia : ImportArity) (pkg : String)
    (l : List ImportItem) : ∀ st : FrontState,
    FrameOK st (l.foldl (exportOne k ia pkg) st) := by
  induction l with
  | nil => intro st; exact frameOK_refl st
  | cons hd tl ih =>
    intro st
    exact frameOK_trans (frame_exportOne k ia pkg st hd) (ih _)

theorem frame_parse_export (st : FrontState) (c : ExportClause) :
    FrameOK st (parse_export st c) := by
  unfold parse_export
  split
  · exact ⟨rfl, rfl, _, rfl⟩
  · exact frame_foldl_exportOne _ _ _ _ st

theorem frame_parse_topic (st : FrontState) (t : TopicDecl) :
    FrameOK st (parse_topic st t) := by
  simp only [parse_topic]
  split
  · exact ⟨rfl, rfl, _, rfl⟩
  · split
    · exact ⟨rfl, rfl, _, rfl⟩
    · split
      · split
        · exact ⟨rfl, rfl, [], (List.append_nil _).symm⟩
        · exact ⟨rfl, rfl, [], (List.append_nil _).symm⟩
      · split
        · exact ⟨rfl, rfl, [], (List.append_nil _).symm⟩
        · exact ⟨rfl, rfl, [], (List.append_nil _).symm⟩

theorem parse_package_importsOf (st : FrontState) (loc idLoc : Location) (id : String) :
    importsOf (parse_package st loc idLoc id) = importsOf st := by
  unfold parse_package
  split
  · rfl
  · split <;> rfl

theorem parse_package_diags_ext (st : FrontState) (loc idLoc : Location) (id : String) :
    DiagsExt st (parse_package st loc idLoc id) := by
  unfold parse_package
  split
  · exact ⟨_, rfl⟩
  · split
    · exact ⟨[], (List.append_nil _).symm⟩
    · exact ⟨_, rfl⟩

theorem importTargetSet_pkgName (st : FrontState) (k : ImpKind)
    (m : List (String × SymbolSource)) : (importTargetSet st k m).pkgName = st.pkgName := by
  cases k <;> rfl

theorem diagsExt_trans {a b c : FrontState} (h1 : DiagsExt a b) (h2 : DiagsExt b c) :
    DiagsExt a c := by
  obtain ⟨t1, d1⟩ := h1
  obtain ⟨t2, d2⟩ := h2
  exact ⟨t1 ++ t2, by rw [d2, d1, List.append_assoc]⟩

theorem importKindDiag_pkgName (kc : Bool) (loc : Location) (pkg : String)
    (st : FrontState) : (importKindDiag kc loc pkg st).pkgName = st.pkgName := by
  unfold importKindDiag; split <;> rfl

theorem importKindDiag_diags_ext (kc : Bool) (loc : Location) (pkg : String)
    (st : FrontState) : DiagsExt st (importKindDiag kc loc pkg st) := by
  unfold importKindDiag
  split
  · exact ⟨_, rfl⟩
  · exact ⟨[], (List.append_nil _).symm⟩

theorem importInsert_pkgName (k : ImpKind) (st : FrontState) (loc : Location)
    (n s : String) : (importInsert k st loc n s).pkgName = st.pkgName := by
  unfold importInsert
  split
  · rfl
  · rw [importTargetSet_pkgName]

theorem importInsert_diags_ext (k : ImpKind) (st : FrontState) (loc : Location)
    (n s : String) : DiagsExt st (importInsert k st loc n s) := by
  unfold importInsert
  split
  · exact ⟨_, rfl⟩
  · exact ⟨[], by rw [importTargetSet_diags, List.append_nil]⟩

theorem importOne_pkgName (k : ImpKind) (ia : ImportArity) (pkg : String)
    (st : FrontState) (it : ImportItem) :
    (importOne k ia pkg st it).pkgName = st.pkgName := by
  unfold importOne
  rw [importInsert_pkgName, importKindDiag_pkgName]

theorem importOne_diags_ext (k : ImpKind) (ia : ImportArity) (pkg : String)
    (st : FrontState) (it : ImportItem) : DiagsExt st (importOne k ia pkg st it) := by
  unfold importOne
  exact diagsExt_trans (importKindDiag_diags_ext _ it.loc pkg st)
    (importInsert_diags_ext k _ it.loc _ _)

theorem foldl_importOne_pkgName (k : ImpKind) (ia : ImportArity) (pkg : String)
    (l : List ImportItem) : ∀ st : FrontState,
    (l.foldl (importOne k ia pkg) st).pkgName = st.pkgName := by
  induction l with
  | nil => intro st; rfl
  | cons hd tl ih =>
    intro st
    rw [List.foldl_cons, ih, importOne_pkgName]

theorem foldl_importOne_diags_ext (k : ImpKind) (ia : ImportArity) (pkg : String)
    (l : List ImportItem) : ∀ st : FrontState,
    DiagsExt st (l.foldl (importOne k ia pkg) st) := by
  induction l with
  | nil => intro st; exact ⟨[], (List.append_nil _).symm⟩
  | cons hd tl ih =>
    intro st
    exact diagsExt_trans (importOne_diags_ext k ia pkg st hd) (ih _)

theorem parse_import_pkgName (st : FrontState) (c : ImportClause) :
    (parse_import st c).pkgName = st.pkgName := by
  unfold parse_import
  split
  · rfl
  · exact foldl_importOne_pkgName _ _ _ _ st

theorem parse_import_diags_ext (st : FrontState) (c : ImportClause) :
    DiagsExt st (parse_import st c) := by
  unfold parse_import
  split
  · exact ⟨[], (List.append_nil _).symm⟩
  · exact foldl_importOne_diags_ext _ _ _ _ st

theorem stepItem_pkgName (st : FrontState) (it : TopItem)
    (h : it.isPackage = false) : (stepItem st it).pkgName = st.pkgName := by
  cases it with
  | package loc idLoc id => cases h
  | importItem c => exact parse_import_pkgName st c
  | exportItem c => exact (frame_parse_export st c).1
  | topicItem t => exact (frame_parse_topic st t).1
  | dataItem d => exact (frame_parse_data st d).1
  | tupleItem t => exact (frame_parse_tuple st t).1
  | defItem d => rfl
  | targetItem d => rfl
  | publishItem => rfl
  | errorItem => rfl

theorem stepItem_importsOf (st : FrontState) (it : TopItem)
    (h : it.isImport = false) : importsOf (stepItem st it) = importsOf st := by
  cases it with
  | package loc idLoc id => exact parse_package_importsOf st loc idLoc id
  | importItem c => cases h
  | exportItem c => exact (frame_parse_export st c).2.1
  | topicItem t => exact (frame_parse_topic st t).2.1
  | dataItem d => exact (frame_parse_data st d).2.1
  | tupleItem t => exact (frame_parse_tuple st t).2.1
  | defItem d => rfl
  | targetItem d => rfl
  | publishItem => rfl
  | errorItem => rfl

theorem stepItem_diags_ext (st : FrontState) (it : TopItem) :
    DiagsExt st (stepItem st it) := by
  cases it with
  | package loc idLoc id => exact parse_package_diags_ext st loc idLoc id
  | importItem c => exact parse_import_diags_ext st c
  | exportItem c => exact (frame_parse_export st c).2.2
  | topicItem t => exact (frame_parse_topic st t).2.2
  | dataItem d => exact (frame_parse_data st d).2.2
  | tupleItem t => exact (frame_parse_tuple st t).2.2
  | defItem d => exact ⟨[], (List.append_nil _).symm⟩
  | targetItem d => exact ⟨[], (List.append_nil _).symm⟩
  | publishItem => exact ⟨[], (List.append_nil _).symm⟩
  | errorItem => exact ⟨[], (List.append_nil _).symm⟩

theorem foldl_stepItem_pkgName (items : List TopItem) :
    ∀ st : FrontState, (∀ it ∈ items, it.isPackage = false) →
    (items.foldl stepItem st).pkgName = st.pkgName := by
  induction items with
  | nil => intro st _; rfl
  | cons hd tl ih =>
    intro st h
    rw [List.foldl_cons, ih _ (fun it hit => h it (List.mem_cons_of_mem _ hit)),
      stepItem_pkgName st hd (h hd (List.mem_cons_self _ _))]

theorem foldl_stepItem_importsOf (items : List TopItem) :
    ∀ st : FrontState, (∀ it ∈ items, it.isImport = false) →
    importsOf (items.foldl stepItem st) = importsOf st := by
  induction items with
  | nil => intro st _; rfl
  | cons hd tl ih =>
    intro st h
    rw [List.foldl_cons, ih _ (fun it hit => h it (List.mem_cons_of_mem _ hit)),
      stepItem_importsOf st hd (h hd (List.mem_cons_self _ _))]

theorem foldl_stepItem_diags_mem (items : List TopItem) :
    ∀ (st : FrontState) (x : Diagnostic), x ∈ st.diags →
    x ∈ (items.foldl stepItem st).diags := by
  induction items with
  | nil => intro st x h; exact h
  | cons hd tl ih =>
    intro st x h
    rw [List.foldl_cons]
    refine ih _ x ?_
    obtain ⟨tail, ht⟩ := stepItem_diags_ext st hd
    rw [ht]
    exact List.mem_append_left _ h

theorem importDefault_pkgName (st : FrontState) :
    (importDefault st).pkgName = st.pkgName := by
  unfold importDefault; split <;> rfl

theorem importDefault_diags (st : FrontState) :
    (importDefault st).diags = st.diags := by
  unfold importDefault; split <;> rfl

theorem packageDefault_diags (f : String) (st : FrontState) :
    (packageDefault f st).diags = st.diags := by
  unfold packageDefault; split <;> rfl

theorem packageDefault_importAll (f : String) (st : FrontState) :
    (packageDefault f st).importAll = st.importAll := by
  unfold packageDefault; split <;> rfl

theorem packageDefault_pkgName_of_empty (f : String) (st : FrontState)
    (h : st.pkgName = "") : (packageDefault f st).pkgName = f := by
  unfold packageDefault
  rw [if_pos h]

theorem packageDefault_pkgName_of_ne (f : String) (st : FrontState)
    (h : st.pkgName ≠ "") : (packageDefault f st).pkgName = st.pkgName := by
  unfold packageDefault
  rw [if_neg h]

theorem parse_package_sets (st : FrontState) (loc idLoc : Location) (id : String)
    (h0 : st.pkgName = "") (hb : id ≠ "builtin") :
    (parse_package st loc idLoc id).pkgName = id := by
  unfold parse_package
  rw [if_neg hb, if_pos h0]

theorem parse_package_builtin_diags (st : FrontState) (loc idLoc : Location) :
    (parse_package st loc idLoc "builtin").diags =
      st.diags ++ [⟨idLoc, DiagMsg.illegalBuiltin⟩] := by
  unfold parse_package
  rw [if_pos rfl]

theorem dst_top_diags (f : String) (items : List TopItem) :
    (dst_top f items).diags = (items.foldl stepItem initState).diags := by
  unfold dst_top localizeDefs
  show (packageDefault f (importDefault _)).diags = _
  rw [packageDefault_diags, importDefault_diags]

theorem dst_top_pkgName (f : String) (items : List TopItem) :
    (dst_top f items).pkgName =
      (packageDefault f (importDefault (items.foldl stepItem initState))).pkgName := rfl

theorem dst_top_importAll (f : String) (items : List TopItem) :
    (dst_top f items).importAll =
      (importDefault (items.foldl stepItem initState)).importAll := by
  unfold dst_top localizeDefs
  show (packageDefault f (importDefault _)).importAll = _
  rw [packageDefault_importAll]

/-- Claim C8: the resulting package name is the identifier of the file's
package declaration when one is present; when none is present the filename
is used; and `package builtin` produces an error diagnostic. -/
theorem package_name_resolution (filename : String) (items pre post : List TopItem)
    (loc idLoc : Location) (id : String) :
    (items = pre ++ TopItem.package loc idLoc id :: post →
      (∀ it ∈ pre, it.isPackage = false) → (∀ it ∈ post, it.isPackage = false) →
      id ≠ "builtin" → id ≠ "" →
      (dst_top filename items).pkgName = id) ∧
    ((∀ it ∈ items, it.isPackage = false) →
      (dst_top filename items).pkgName = filename) ∧
    (TopItem.package loc idLoc "builtin" ∈ items →
      Diagnostic.mk idLoc DiagMsg.illegalBuiltin ∈ (dst_top filename items).diags) := by
  refine ⟨?_, ?_, ?_⟩
  · intro heq hpre hpost hb hne
    have hfold : ((pre ++ TopItem.package loc idLoc id :: post).foldl
        stepItem initState).pkgName = id := by
      rw [List.foldl_append, List.foldl_cons, foldl_stepItem_pkgName post _ hpost]
      have h0 : (pre.foldl stepItem initState).pkgName = "" := by
        rw [foldl_stepItem_pkgName pre _ hpre]; rfl
      exact parse_package_sets _ _ _ _ h0 hb
    rw [heq, dst_top_pkgName, packageDefault_pkgName_of_ne, importDefault_pkgName, hfold]
    rw [importDefault_pkgName, hfold]
    exact hne
  · intro h
    have hfold : (items.foldl stepItem initState).pkgName = "" := by
      rw [foldl_stepItem_pkgName items _ h]; rfl
    rw [dst_top_pkgName, packageDefault_pkgName_of_empty]
    rw [importDefault_pkgName, hfold]
  · intro hmem
    obtain ⟨s, t2, heq⟩ := List.append_of_mem hmem
    rw [dst_top_diags, heq, List.foldl_append, List.foldl_cons]
    refine foldl_stepItem_diags_mem t2 _ _ ?_
    show _ ∈ (parse_package _ loc idLoc "builtin").diags
    rw [parse_package_builtin_diags]
    exact List.mem_append_right _ (List.mem_singleton.mpr rfl)

/-- Witness for C8 at three concrete one-item files. -/
theorem package_name_resolution_witness :
    (dst_top "file.wake" [TopItem.package ⟨5⟩ ⟨6⟩ "p"]).pkgName = "p" ∧
    (dst_top "file.wake" []).pkgName = "file.wake" ∧
    Diagnostic.mk ⟨6⟩ DiagMsg.illegalBuiltin ∈
      (dst_top "file.wake" [TopItem.package ⟨5⟩ ⟨6⟩ "builtin"]).diags :=
  ⟨(package_name_resolution "file.wake" [TopItem.package ⟨5⟩ ⟨6⟩ "p"] [] []
      ⟨5⟩ ⟨6⟩ "p").1 rfl (fun it h => absurd h (List.not_mem_nil it))
      (fun it h => absurd h (List.not_mem_nil it)) (by decide) (by decide),
   (package_name_resolution "file.wake" [] [] [] ⟨5⟩ ⟨6⟩ "p").2.1
      (fun it h => absurd h (List.not_mem_nil it)),
   (package_name_resolution "file.wake" [TopItem.package ⟨5⟩ ⟨6⟩ "builtin"] [] []
      ⟨5⟩ ⟨6⟩ "builtin").2.2 (List.mem_cons_self _ _)⟩

theorem alookup_some_ne_nil {α : Type} (m : List (String × α)) (q : String) (v : α)
    (h : alookup m q = some v) : m ≠ [] := by
  intro hn
  subst hn
  cases h

theorem isEmpty_false_of_ne_nil {α : Type} (l : List α) (h : l ≠ []) :
    l.isEmpty = false := by
  cases l with
  | nil => exact absurd rfl h
  | cons a l => rfl

theorem importTargetGet_importTargetSet (st : FrontState) (k : ImpKind)
    (m : List (String × SymbolSource)) :
    importTargetGet (importTargetSet st k m) k = m := by
  cases k <;> rfl

theorem importTargetGet_diagUpdate (st : FrontState) (k : ImpKind)
    (d : List Diagnostic) :
    importTargetGet { st with diags := d } k = importTargetGet st k := by
  cases k <;> rfl

theorem importInsert_target_ne (k : ImpKind) (st : FrontState) (loc : Location)
    (n s : String) : importTargetGet (importInsert k st loc n s) k ≠ [] := by
  unfold importInsert
  split
  · rename_i prev heq
    rw [importTargetGet_diagUpdate]
    exact alookup_some_ne_nil _ _ _ heq
  · rw [importTargetGet_importTargetSet]
    exact List.cons_ne_nil _ _

theorem importOne_target_ne (k : ImpKind) (ia : ImportArity) (pkg : String)
    (st : FrontState) (it : ImportItem) :
    importTargetGet (importOne k ia pkg st it) k ≠ [] := by
  unfold importOne
  exact importInsert_target_ne k _ it.loc _ _

theorem foldl_importOne_target_ne (k : ImpKind) (ia : ImportArity) (pkg : String) :
    ∀ (l : List ImportItem) (st : FrontState), l ≠ [] →
    importTargetGet (l.foldl (importOne k ia pkg) st) k ≠ [] := by
  intro l
  induction l with
  | nil => intro st h; exact absurd rfl h
  | cons hd tl ih =>
    intro st _
    cases tl with
    | nil => exact importOne_target_ne k ia pkg st hd
    | cons h2 t2 =>
      rw [List.foldl_cons]
      exact ih _ (List.cons_ne_nil _ _)

theorem importsEmpty_false_of_target (st : FrontState) (k : ImpKind)
    (h : importTargetGet st k ≠ []) : importsEmpty st = false := by
  cases k with
  | mixed =>
    have h2 : st.importMixed ≠ [] := h
    simp [importsEmpty, isEmpty_false_of_ne_nil _ h2]
  | defs =>
    have h2 : st.importDefs ≠ [] := h
    simp [importsEmpty, isEmpty_false_of_ne_nil _ h2]
  | types =>
    have h2 : st.importTypes ≠ [] := h
    simp [importsEmpty, isEmpty_false_of_ne_nil _ h2]
  | topics =>
    have h2 : st.importTopics ≠ [] := h
    simp [importsEmpty, isEmpty_false_of_ne_nil _ h2]

theorem parse_import_importsEmpty_false (st : FrontState) (c : ImportClause) :
    importsEmpty (parse_import st c) = false := by
  unfold parse_import
  split
  · have h : st.importAll ++ [c.pkg] ≠ [] := by simp
    simp [importsEmpty, isEmpty_false_of_ne_nil _ h]
  · rename_i hne
    have hne2 : c.items ≠ [] := by
      intro h
      rw [h] at hne
      exact hne rfl
    exact importsEmpty_false_of_target _ c.kind
      (foldl_importOne_target_ne c.kind c.arity c.pkg c.items st hne2)

theorem importsEmpty_congr (st st2 : FrontState)
    (h : importsOf st2 = importsOf st) : importsEmpty st2 = importsEmpty st := by
  have h1 : st2.importDefs = st.importDefs := congrArg (fun x => x.1) h
  have h2 : st2.importTypes = st.importTypes := congrArg (fun x => x.2.1) h
  have h3 : st2.importTopics = st.importTopics := congrArg (fun x => x.2.2.1) h
  have h4 : st2.importMixed = st.importMixed := congrArg (fun x => x.2.2.2.1) h
  have h5 : st2.importAll = st.importAll := congrArg (fun x => x.2.2.2.2) h
  unfold importsEmpty
  rw [h1, h2, h3, h4, h5]

theorem stepItem_importsEmpty_false (st : FrontState) (it : TopItem)
    (h : importsEmpty st = false) : importsEmpty (stepItem st it) = false := by
  cases it with
  | importItem c => exact parse_import_importsEmpty_false st c
  | package loc idLoc id =>
    rw [importsEmpty_congr _ _ (stepItem_importsOf st (.package loc idLoc id) rfl)]
    exact h
  | exportItem c =>
    rw [importsEmpty_congr _ _ (stepItem_importsOf st (.exportItem c) rfl)]
    exact h
  | topicItem t =>
    rw [importsEmpty_congr _ _ (stepItem_importsOf st (.topicItem t) rfl)]
    exact h
  | dataItem d =>
    rw [importsEmpty_congr _ _ (stepItem_importsOf st (.dataItem d) rfl)]
    exact h
  | tupleItem t =>
    rw [importsEmpty_congr _ _ (stepItem_importsOf st (.tupleItem t) rfl)]
    exact h
  | defItem d => exact h
  | targetItem d => exact h
  | publishItem => exact h
  | errorItem => exact h

theorem foldl_stepItem_importsEmpty_false (items : List TopItem) :
    ∀ st : FrontState, importsEmpty st = false →
    importsEmpty (items.foldl stepItem st) = false := by
  induction items with
  | nil => intro st h; exact h
  | cons hd tl ih =>
    intro st h
    rw [List.foldl_cons]
    exact ih _ (stepItem_importsEmpty_false st hd h)

/-- Claim C10: a file whose top-level items declare no import at all gets the
default wildcard import of package `wake` (`import_all` ends as `["wake"]`);
a file with at least one explicit import clause gets no such default. -/
theorem default_wake_import (filename : String) (items : List TopItem)
    (c : ImportClause) :
    ((∀ it ∈ items, it.isImport = false) →
      (dst_top filename items).importAll = ["wake"]) ∧
    (TopItem.importItem c ∈ items →
      (dst_top filename items).importAll =
        (items.foldl stepItem initState).importAll) := by
  constructor
  · intro h
    have hio := foldl_stepItem_importsOf items initState h
    have hAll : (items.foldl stepItem initState).importAll = [] :=
      congrArg (fun x => x.2.2.2.2) hio
    have hEmp : importsEmpty (items.foldl stepItem initState) = true := by
      rw [importsEmpty_congr _ _ hio]; rfl
    rw [dst_top_importAll]
    unfold importDefault
    rw [if_pos hEmp, hAll]
    rfl
  · intro hmem
    obtain ⟨s, t2, heq⟩ := List.append_of_mem hmem
    have hfoldEmp : importsEmpty (items.foldl stepItem initState) = false := by
      rw [heq, List.foldl_append, List.foldl_cons]
      exact foldl_stepItem_importsEmpty_false t2 _
        (parse_import_importsEmpty_false _ c)
    rw [dst_top_importAll]
    unfold importDefault
    rw [if_neg]
    rw [hfoldEmp]
    intro hcontra
    cases hcontra

/-- Witness for C10: an importless file gets `["wake"]`; a file with one
wildcard import keeps exactly its own wildcard list. -/
theorem default_wake_import_witness :
    (dst_top "f.wake" []).importAll = ["wake"] ∧
    (dst_top "f.wake" [TopItem.importItem wildcardClause]).importAll =
      ([TopItem.importItem wildcardClause].foldl stepItem initState).importAll :=
  ⟨(default_wake_import "f.wake" [] wildcardClause).1
      (fun it h => absurd h (List.not_mem_nil it)),
   (default_wake_import "f.wake" [TopItem.importItem wildcardClause] wildcardClause).2
      (List.mem_cons_self _ _)⟩

theorem popLoop_length (nd : List Char) :
    ∀ (stack : List Nat) (indent : List Char),
    (popLoop nd indent stack).1 + (popLoop nd indent stack).2.2.length
      = stack.length := by
  intro stack
  induction stack with
  | nil =>
    intro indent
    simp only [popLoop]
    split
    · rfl
    · rfl
  | cons n rest ih =>
    intro indent
    simp only [popLoop]
    split
    · simp
    · have := ih (indent.take n)
      simp only [List.length_cons]
      omega

theorem count_nlopt_dedent (b : Bool) :
    (if b then [OutTok.tok .nl] else []).count OutTok.dedent = 0 := by
  split <;> rfl

theorem count_nlopt_indent (b : Bool) :
    (if b then [OutTok.tok .nl] else []).count OutTok.indent = 0 := by
  split <;> rfl

theorem count_replicate_dedent_self (n : Nat) :
    (List.replicate n OutTok.dedent).count OutTok.dedent = n :=
  List.count_replicate_self _ _

theorem count_replicate_dedent_indent (n : Nat) :
    (List.replicate n OutTok.dedent).count OutTok.indent = 0 := by
  rw [List.count_replicate]
  rfl

theorem reconcile_counts (nlShift : Bool) (s : IngestSt) :
    ((reconcile nlShift s).2.stack.length +
        (reconcile nlShift s).1.count OutTok.dedent
      = s.stack.length + (reconcile nlShift s).1.count OutTok.indent) ∧
    (reconcile nlShift s).1.count OutTok.dedent ≤ s.stack.length := by
  have hlen := popLoop_length s.wsBuf s.stack s.indent
  have h1 : ([OutTok.indent] : List OutTok).count OutTok.dedent = 0 := rfl
  have h2 : ([OutTok.indent] : List OutTok).count OutTok.indent = 1 := rfl
  constructor
  · simp only [reconcile]
    split
    · simp only [List.count_append, count_nlopt_dedent, count_nlopt_indent,
        count_replicate_dedent_self, count_replicate_dedent_indent, h1, h2,
        List.length_cons]
      omega
    · simp only [List.count_append, count_nlopt_dedent, count_nlopt_indent,
        count_replicate_dedent_self, count_replicate_dedent_indent]
      omega
  · simp only [reconcile]
    split
    · simp only [List.count_append, count_nlopt_dedent, count_nlopt_indent,
        count_replicate_dedent_self, count_replicate_dedent_indent, h1, h2]
      omega
    · simp only [List.count_append, count_nlopt_dedent, count_nlopt_indent,
        count_replicate_dedent_self, count_replicate_dedent_indent]
      omega

theorem nlwsHandle_counts (nlShift : Bool) (s : IngestSt) (t : InTok) :
    ((nlwsHandle nlShift s t).2.1.stack.length +
        (nlwsHandle nlShift s t).1.count OutTok.dedent
      = s.stack.length + (nlwsHandle nlShift s t).1.count OutTok.indent) ∧
    (nlwsHandle nlShift s t).1.count OutTok.dedent ≤ s.stack.length := by
  cases t with
  | nl => exact ⟨rfl, Nat.zero_le _⟩
  | comment => exact ⟨rfl, Nat.zero_le _⟩
  | ws w => exact reconcile_counts nlShift s
  | eof => exact reconcile_counts nlShift s
  | other id => exact reconcile_counts nlShift s

theorem wsFSM_counts (nlShift : Bool) (s : IngestSt) (t : InTok) :
    ((wsFSM nlShift s t).2.1.stack.length +
        (wsFSM nlShift s t).1.count OutTok.dedent
      = s.stack.length + (wsFSM nlShift s t).1.count OutTok.indent) ∧
    (wsFSM nlShift s t).1.count OutTok.dedent ≤ s.stack.length := by
  obtain ⟨state, wsBuf, indent, stack⟩ := s
  cases state with
  | idle =>
    cases t with
    | ws w => exact ⟨rfl, Nat.zero_le _⟩
    | comment => exact ⟨rfl, Nat.zero_le _⟩
    | nl => exact ⟨rfl, Nat.zero_le _⟩
    | eof => exact ⟨rfl, Nat.zero_le _⟩
    | other id => exact ⟨rfl, Nat.zero_le _⟩
  | sawNL =>
    cases t with
    | ws w => exact ⟨rfl, Nat.zero_le _⟩
    | nl => exact nlwsHandle_counts nlShift _ _
    | comment => exact nlwsHandle_counts nlShift _ _
    | eof => exact nlwsHandle_counts nlShift _ _
    | other id => exact nlwsHandle_counts nlShift _ _
  | sawNLWS => exact nlwsHandle_counts nlShift _ t

theorem count_tok_dedent (t : InTok) :
    ([OutTok.tok t] : List OutTok).count OutTok.dedent = 0 := rfl

theorem count_tok_indent (t : InTok) :
    ([OutTok.tok t] : List OutTok).count OutTok.indent = 0 := rfl

theorem ingestStep_counts (nlShift : Bool) (s : IngestSt) (t : InTok) :
    (ingestStep nlShift s t).2.stack.length +
        (ingestStep nlShift s t).1.count OutTok.dedent
      = s.stack.length + (ingestStep nlShift s t).1.count OutTok.indent := by
  have hw := wsFSM_counts nlShift s t
  simp only [ingestStep]
  split
  · simp only [List.count_append, count_nlopt_dedent, count_nlopt_indent,
      count_replicate_dedent_self, count_replicate_dedent_indent,
      count_tok_dedent, count_tok_indent, List.length_nil]
    omega
  · split
    · simp only [List.count_append, count_tok_dedent, count_tok_indent]
      omega
    · exact hw.1

theorem ingestStep_dedent_le (nlShift : Bool) (s : IngestSt) (t : InTok)
    (hne : t ≠ .eof) :
    (ingestStep nlShift s t).1.count OutTok.dedent ≤ s.stack.length := by
  have hw := wsFSM_counts nlShift s t
  simp only [ingestStep]
  rw [if_neg hne]
  split
  · simp only [List.count_append, count_tok_dedent]
    omega
  · exact hw.2

theorem ingestStep_eof_stack (nlShift : Bool) (s : IngestSt) :
    (ingestStep nlShift s .eof).2.stack = [] := by
  simp [ingestStep]

theorem prefix_bound_of_count_le (A : List OutTok) (n0 : Nat)
    (h : A.count OutTok.dedent ≤ n0) :
    ∀ n, (A.take n).count OutTok.dedent ≤ (A.take n).count OutTok.indent + n0 := by
  intro n
  have h2 := (List.take_sublist n A).count_le OutTok.dedent
  omega

theorem prefix_bound_append (A B : List OutTok) (n0 n1 : Nat)
    (hA : ∀ n, (A.take n).count OutTok.dedent ≤ (A.take n).count OutTok.indent + n0)
    (hbal : n1 + A.count OutTok.dedent = n0 + A.count OutTok.indent)
    (hB : ∀ n, (B.take n).count OutTok.dedent ≤ (B.take n).count OutTok.indent + n1) :
    ∀ n, ((A ++ B).take n).count OutTok.dedent ≤
      ((A ++ B).take n).count OutTok.indent + n0 := by
  intro n
  rw [List.take_append_eq_append_take, List.count_append, List.count_append]
  by_cases hn : n ≤ A.length
  · have hz : n - A.length = 0 := Nat.sub_eq_zero_of_le hn
    rw [hz]
    simp only [List.take_zero, List.count_nil]
    have := hA n
    omega
  · have hA2 : A.take n = A := List.take_of_length_le (by omega)
    rw [hA2]
    have h2 := hB (n - A.length)
    have h3 := hA A.length
    omega

theorem ingestStep_take_bound (nlShift : Bool) (s : IngestSt) (t : InTok) :
    ∀ n, ((ingestStep nlShift s t).1.take n).count OutTok.dedent ≤
      ((ingestStep nlShift s t).1.take n).count OutTok.indent + s.stack.length := by
  have hw := wsFSM_counts nlShift s t
  simp only [ingestStep]
  split
  · rw [List.append_assoc, List.append_assoc]
    refine prefix_bound_append _ _ _ ((wsFSM nlShift s t).2.1.stack.length) ?_ hw.1 ?_
    · exact prefix_bound_of_count_le _ _ hw.2
    · refine prefix_bound_of_count_le _ _ ?_
      simp only [List.count_append, count_nlopt_dedent, count_tok_dedent,
        count_replicate_dedent_self]
      omega
  · split
    · refine prefix_bound_of_count_le _ _ ?_
      simp only [List.count_append, count_tok_dedent]
      omega
    · exact prefix_bound_of_count_le _ _ hw.2

theorem ingestRun_counts (nlShift : Bool) :
    ∀ (ts : List InTok) (s : IngestSt),
    (ingestRun nlShift s ts).2.stack.length +
        (ingestRun nlShift s ts).1.count OutTok.dedent
      = s.stack.length + (ingestRun nlShift s ts).1.count OutTok.indent := by
  intro ts
  induction ts with
  | nil => intro s; simp [ingestRun]
  | cons t rest ih =>
    intro s
    simp only [ingestRun]
    split
    · exact ingestStep_counts nlShift s t
    · simp only [List.count_append]
      have h1 := ingestStep_counts nlShift s t
      have h2 := ih (ingestStep nlShift s t).2
      omega

theorem ingestRun_take_bound (nlShift : Bool) :
    ∀ (ts : List InTok) (s : IngestSt) (n : Nat),
    ((ingestRun nlShift s ts).1.take n).count OutTok.dedent ≤
      ((ingestRun nlShift s ts).1.take n).count OutTok.indent + s.stack.length := by
  intro ts
  induction ts with
  | nil =>
    intro s n
    simp [ingestRun]
  | cons t rest ih =>
    intro s n
    simp only [ingestRun]
    split
    · exact ingestStep_take_bound nlShift s t n
    · exact prefix_bound_append _ _ _ ((ingestStep nlShift s t).2.stack.length)
        (ingestStep_take_bound nlShift s t) (ingestStep_counts nlShift s t)
        (fun m => ih (ingestStep nlShift s t).2 m) n

theorem ingestRun_eof_stack (nlShift : Bool) :
    ∀ (ts : List InTok) (s : IngestSt), InTok.eof ∈ ts →
    (ingestRun nlShift s ts).2.stack = [] := by
  intro ts
  induction ts with
  | nil => intro s h; cases h
  | cons t rest ih =>
    intro s h
    simp only [ingestRun]
    split
    · rename_i he
      rw [he]
      exact ingestStep_eof_stack nlShift s
    · rename_i he
      refine ih _ ?_
      cases h with
      | head => exact absurd rfl he
      | tail _ h2 => exact h2

/-- Claim C4: the synthetic `INDENT`/`DEDENT` tokens `ingest` feeds the
parser are balanced — over a whole input stream (terminated by `EOF`) the
counts are equal, no prefix closes more than it has opened, the indent stack
is empty at the end, and the `EOF` block emits exactly one `DEDENT` per
remaining stack entry (the equation's `s.stack.length` summand), leaving the
stack empty. -/
theorem offside_tokens_balanced (nlShift : Bool) (ts : List InTok) (s : IngestSt) :
    ((ingestRun nlShift ingestInit (ts ++ [.eof])).1.count OutTok.dedent
      = (ingestRun nlShift ingestInit (ts ++ [.eof])).1.count OutTok.indent) ∧
    (∀ n, ((ingestRun nlShift ingestInit (ts ++ [.eof])).1.take n).count OutTok.dedent
      ≤ ((ingestRun nlShift ingestInit (ts ++ [.eof])).1.take n).count OutTok.indent) ∧
    (ingestRun nlShift ingestInit (ts ++ [.eof])).2.stack = [] ∧
    (ingestStep nlShift s .eof).2.stack = [] ∧
    (ingestStep nlShift s .eof).1.count OutTok.dedent
      = s.stack.length + (ingestStep nlShift s .eof).1.count OutTok.indent := by
  have hstack : (ingestRun nlShift ingestInit (ts ++ [.eof])).2.stack = [] :=
    ingestRun_eof_stack nlShift _ _
      (List.mem_append_right _ (List.mem_singleton.mpr rfl))
  have hbal := ingestRun_counts nlShift (ts ++ [.eof]) ingestInit
  rw [hstack] at hbal
  refine ⟨by simpa [ingestInit] using hbal, ?_, hstack,
    ingestStep_eof_stack nlShift s, ?_⟩
  · intro n
    have h := ingestRun_take_bound nlShift (ts ++ [.eof]) ingestInit n
    simpa [ingestInit] using h
  · have h1 := ingestStep_counts nlShift s .eof
    rw [ingestStep_eof_stack nlShift s] at h1
    simpa using h1

/-- Claim C9: empty lines (`NL WS? NL`) and comment-only lines
(`NL WS? COMMENT`) never change the indentation level — processing them emits
no token at all (in particular no `INDENT`/`DEDENT`) and leaves the current
indent string and the indent stack unchanged, from every machine state. -/
theorem empty_comment_lines_no_indent_change (nlShift : Bool) (s : IngestSt)
    (w : List Char) :
    (ingestRun nlShift s [.nl, .ws w, .nl]).1 = [] ∧
    (ingestRun nlShift s [.nl, .ws w, .nl]).2.indent = s.indent ∧
    (ingestRun nlShift s [.nl, .ws w, .nl]).2.stack = s.stack ∧
    (ingestRun nlShift s [.nl, .nl]).1 = [] ∧
    (ingestRun nlShift s [.nl, .nl]).2.indent = s.indent ∧
    (ingestRun nlShift s [.nl, .nl]).2.stack = s.stack ∧
    (ingestRun nlShift s [.nl, .ws w, .comment]).1 = [] ∧
    (ingestRun nlShift s [.nl, .ws w, .comment]).2.indent = s.indent ∧
    (ingestRun nlShift s [.nl, .ws w, .comment]).2.stack = s.stack ∧
    (ingestRun nlShift s [.nl, .comment]).1 = [] ∧
    (ingestRun nlShift s [.nl, .comment]).2.indent = s.indent ∧
    (ingestRun nlShift s [.nl, .comment]).2.stack = s.stack := by
  obtain ⟨state, wsBuf, indent, stack⟩ := s
  cases state <;>
    exact ⟨rfl, rfl, rfl, rfl, rfl, rfl, rfl, rfl, rfl, rfl, rfl, rfl⟩

end Wake
